import Mathlib

/-!
Verification of the A* route-planning core (route_model.cpp / route_planner.cpp).

The C++ code works on `float` coordinates and uses the Euclidean distance
`std::sqrt(std::pow(x - ox, 2) + std::pow(y - oy, 2))`.  We embed coordinates as
rationals and keep the square root abstract: every theorem is stated for an
arbitrary distance function `d : Point → Point → ℚ` constrained by `DistOk d`,
which says exactly what the code relies on about `sqrt` of the squared Euclidean
distance: it is globally strictly monotone in the squared distance, vanishes on
identical points, and stays below `FLT_MAX`.  Concrete witnesses instantiate `d`
with a rational strictly-monotone squashing of the squared distance, which
satisfies `DistOk` and agrees with the true Euclidean distance on the pairs the
concrete scenarios evaluate.
-/

/-- Planar point with rational coordinates (Model::Node has double x, y). -/
structure Point where
  x : ℚ
  y : ℚ
deriving DecidableEq

/-- Squared Euclidean distance, the expression inside `std::sqrt` in
RouteModel::Node::distance: `(x - other.x)^2 + (y - other.y)^2`. -/
def sqDist (p q : Point) : ℚ :=
  (p.x - q.x) ^ 2 + (p.y - q.y) ^ 2

/-- Road categories from Model::Road::Type in model.h. -/
inductive RoadType
  | Invalid
  | Unclassified
  | Service
  | Residential
  | Tertiary
  | Secondary
  | Primary
  | Trunk
  | Motorway
  | Footway
deriving DecidableEq

/-- Model::Way: an ordered sequence of node indices. -/
structure Way where
  nodes : List Nat
deriving DecidableEq

/-- Model::Road: a way index plus a road classification. -/
structure Road where
  way : Nat
  type : RoadType
deriving DecidableEq

/-- The static part of RouteModel: node coordinates (indexed as SNodes()),
ways, roads and the metric scale factor. -/
structure RouteModel where
  snodes : List Point
  ways : List Way
  roads : List Road
  metricScale : ℚ

/-- Value of `std::numeric_limits<float>::max()`, the initial `h_value` of a
node and the initial `min_dist` of FindClosestNode: (2 - 2⁻²³) · 2¹²⁷. -/
def floatMax : ℚ := 2 ^ 128 - 2 ^ 104

/-- The mutable search bookkeeping of RouteModel::Node: parent pointer
(modelled as an optional index), h, g and the visited flag. -/
structure NodeState where
  parent : Option Nat
  h_value : ℚ
  g_value : ℚ
  visited : Bool
deriving DecidableEq

/-- Default-constructed node state per route_model.h: parent = nullptr,
h = float max, g = 0, visited = false. -/
def initState : NodeState :=
  { parent := none, h_value := floatMax, g_value := 0, visited := false }

/-- Coordinates of node `i` (SNodes()[i]); theorems restrict to in-range
indices, the C++ indexing being undefined out of range. -/
def coord (m : RouteModel) (i : Nat) : Point :=
  m.snodes.getD i ⟨0, 0⟩

/-- The f-value `g_value + h_value` used by the NextNode comparator. -/
def fval (n : NodeState) : ℚ :=
  n.g_value + n.h_value

/-- Shorthand for reading node `i` from the search state. -/
def stGet (st : List NodeState) (i : Nat) : NodeState :=
  st.getD i initState

/-- Way lookup `Ways()[w]`; theorems restrict to in-range indices. -/
def wayGet (m : RouteModel) (w : Nat) : Way :=
  m.ways.getD w ⟨[]⟩

/-- RouteModel::CreateNodeToRoadHashmap, faithful to the unchecked vector
access: for each non-footway road the code reads `Ways()[road.way]` without
a bounds check, so a road whose way index is invalid is an out-of-bounds
access, modelled as `none`.  On success, the returned map sends a node index
to the list of non-footway roads through it, with one entry per occurrence
of the index in the road's way, in road order. -/
def nodeToRoadChecked (m : RouteModel) : Option (Nat → List Road) :=
  m.roads.foldl
    (fun acc road =>
      acc.bind fun f =>
        if road.type = RoadType.Footway then
          some f
        else
          match m.ways.get? road.way with
          | none => none
          | some w =>
              some (w.nodes.foldl
                (fun g idx => fun j => if j = idx then g j ++ [road] else g j) f))
    (some fun _ => [])

/-- Total version of the node-to-road map, used by the search definitions;
it agrees with `nodeToRoadChecked` whenever every road's way index is valid. -/
def nodeToRoad (m : RouteModel) (idx : Nat) : List Road :=
  m.roads.foldl
    (fun acc road =>
      if road.type = RoadType.Footway then acc
      else acc ++ ((wayGet m road.way).nodes.filter (· = idx)).map fun _ => road)
    []

/-- Candidate acceptance test of FindNeighbor, the condition
`this->distance(node) != 0 && !node.visited` of route_model.cpp: nonzero
distance from the scanning node and not yet visited. -/
def validCand (d : Point → Point → ℚ) (m : RouteModel) (st : List NodeState)
    (this u : Nat) : Prop :=
  d (coord m this) (coord m u) ≠ 0 ∧ (stGet st u).visited = false

instance (d : Point → Point → ℚ) (m : RouteModel) (st : List NodeState)
    (this u : Nat) : Decidable (validCand d m st this u) :=
  inferInstanceAs (Decidable (_ ∧ _))

/-- Loop body of RouteModel::Node::FindNeighbor: a candidate with nonzero
distance from `this` that is not visited replaces the running closest node
when the latter is null or strictly farther. -/
def fnStep (d : Point → Point → ℚ) (m : RouteModel) (st : List NodeState)
    (this : Nat) (closest : Option Nat) (idx : Nat) : Option Nat :=
  if validCand d m st this idx then
    match closest with
    | none => some idx
    | some c =>
        if d (coord m this) (coord m idx) < d (coord m this) (coord m c) then
          some idx
        else some c
  else closest

/-- RouteModel::Node::FindNeighbor: scan `node_indices`, keep the index whose
point is strictly closest to `this`, excluding zero-distance points and
visited points; the first index attaining the minimum wins ties. -/
def findNeighbor (d : Point → Point → ℚ) (m : RouteModel) (st : List NodeState)
    (this : Nat) (nodeIndices : List Nat) : Option Nat :=
  nodeIndices.foldl (fnStep d m st this) none

/-- RouteModel::Node::FindNeighbors: for each road through `this` (in
node-to-road order), append the road's FindNeighbor result when present. -/
def findNeighbors (d : Point → Point → ℚ) (m : RouteModel) (st : List NodeState)
    (this : Nat) : List Nat :=
  (nodeToRoad m this).foldl
    (fun acc road =>
      match findNeighbor d m st this (wayGet m road.way).nodes with
      | some nb => acc ++ [nb]
      | none => acc)
    []

/-- One step of the RoutePlanner::AddNeighbors loop body: an unvisited
neighbour gets parent := current, g := current.g + distance, h := distance to
the end node, is appended to the open list and marked visited. -/
def addStep (d : Point → Point → ℚ) (m : RouteModel) (endIdx cur : Nat)
    (s : List NodeState × List Nat) (nb : Nat) : List NodeState × List Nat :=
  if (stGet s.1 nb).visited = false then
    (s.1.set nb
      { parent := some cur
        h_value := d (coord m nb) (coord m endIdx)
        g_value := (stGet s.1 cur).g_value + d (coord m cur) (coord m nb)
        visited := true },
      s.2 ++ [nb])
  else s

/-- Fold of `addStep` over an explicit neighbour list. -/
def addAux (d : Point → Point → ℚ) (m : RouteModel) (endIdx cur : Nat)
    (st : List NodeState) (ol : List Nat) (ns : List Nat) :
    List NodeState × List Nat :=
  ns.foldl (addStep d m endIdx cur) (st, ol)

/-- RoutePlanner::AddNeighbors: compute FindNeighbors for the current node,
then process each neighbour with `addStep`. -/
def addNeighbors (d : Point → Point → ℚ) (m : RouteModel) (endIdx : Nat)
    (st : List NodeState) (ol : List Nat) (cur : Nat) :
    List NodeState × List Nat :=
  addAux d m endIdx cur st ol (findNeighbors d m st cur)

/-- Comparator order used to model `std::sort` in RoutePlanner::NextNode: the
C++ comparator is `(a.g + a.h) > (b.g + b.h)`, i.e. descending f-values.
`std::sort` leaves the relative order of equal-f elements unspecified; we model
the sort with Mathlib's insertion sort for this total order, which satisfies
the same descending-f contract. -/
def fGE (st : List NodeState) (a b : Nat) : Prop :=
  fval (stGet st b) ≤ fval (stGet st a)

instance (st : List NodeState) : DecidableRel (fGE st) := fun a b =>
  inferInstanceAs (Decidable (_ ≤ _))

/-- RoutePlanner::NextNode: sort the open list in descending f order, remove
the last element (minimal f) and return it together with the rest.  `back()`
on an empty vector is undefined; the search only calls this on a non-empty
list, and we return a default index 0 in the empty case. -/
def nextNode (st : List NodeState) (ol : List Nat) : Nat × List Nat :=
  let sorted := List.insertionSort (fGE st) ol
  ((sorted.getLast?).getD 0, sorted.dropLast)

/-- Loop body of RoutePlanner::ConstructFinalPath: push the current node,
follow the parent pointer accumulating the distance to the parent, stop at a
null parent, then reverse and scale the distance by MetricScale.  The C++
while loop would diverge on a cyclic parent chain; fuel exhaustion is `none`. -/
def constructGo (d : Point → Point → ℚ) (m : RouteModel) (st : List NodeState) :
    Nat → Nat → List Nat → ℚ → Option (List Nat × ℚ)
  | 0, _, _, _ => none
  | fuel + 1, cur, acc, dist =>
      match (stGet st cur).parent with
      | some p =>
          constructGo d m st fuel p (acc ++ [cur])
            (dist + d (coord m cur) (coord m p))
      | none => some ((acc ++ [cur]).reverse, dist * m.metricScale)

/-- RoutePlanner::ConstructFinalPath on the node `cur`. -/
def constructFinalPath (d : Point → Point → ℚ) (m : RouteModel)
    (st : List NodeState) (fuel cur : Nat) : Option (List Nat × ℚ) :=
  constructGo d m st fuel cur [] 0

/-- Result of a search run: the path stored into m_Model.path together with
the scaled distance, exhaustion of the open list, or fuel exhaustion (which
never happens with enough fuel; it models nontermination of the C++ loops). -/
inductive Outcome
  | found (path : List Nat) (dist : ℚ)
  | exhausted
  | outOfFuel
deriving DecidableEq

/-- Loop of RoutePlanner::AStarSearch: while the open list is non-empty, pop
the minimal-f node; if it is the end node, construct the final path,
otherwise expand its neighbours. -/
def aStarLoop (d : Point → Point → ℚ) (m : RouteModel) (endIdx : Nat) :
    Nat → List NodeState → List Nat → Outcome
  | 0, _, _ => .outOfFuel
  | fuel + 1, st, ol =>
      if ol = [] then .exhausted
      else
        let next := nextNode st ol
        if next.1 = endIdx then
          match constructFinalPath d m st (st.length + 1) next.1 with
          | some pd => .found pd.1 pd.2
          | none => .outOfFuel
        else
          let s := addNeighbors d m endIdx st next.2 next.1
          aStarLoop d m endIdx fuel s.1 s.2

/-- Search state right after the seeding lines of AStarSearch: every node
default-initialized, then `start_node->visited = true`. -/
def initialState (m : RouteModel) (start : Nat) : List NodeState :=
  (List.replicate m.snodes.length initState).set start
    { initState with visited := true }

/-- RoutePlanner::AStarSearch from `start` to `endIdx`. -/
def aStarSearch (d : Point → Point → ℚ) (m : RouteModel) (start endIdx : Nat)
    (fuel : Nat) : Outcome :=
  aStarLoop d m endIdx fuel (initialState m start) [start]

/-- One full iteration of the AStarSearch loop in the non-terminal case:
pop the minimal-f node and expand it. -/
def stepIter (d : Point → Point → ℚ) (m : RouteModel) (endIdx : Nat)
    (s : List NodeState × List Nat) : List NodeState × List Nat :=
  let next := nextNode s.1 s.2
  addNeighbors d m endIdx s.1 next.2 next.1

/-- The path the run stores into m_Model.path: only a found outcome writes it. -/
def pathResult : Outcome → Option (List Nat × ℚ)
  | .found p dist => some (p, dist)
  | _ => none

/-- RouteModel::FindClosestNode: scan every node of every non-footway road,
tracking the first index whose distance to the query strictly beats the
running minimum (initially float max, index uninitialized = `none`). -/
def findClosestNode (d : Point → Point → ℚ) (m : RouteModel) (x y : ℚ) :
    Option Nat :=
  (m.roads.foldl
    (fun acc road =>
      if road.type = RoadType.Footway then acc
      else
        (wayGet m road.way).nodes.foldl
          (fun acc2 idx =>
            if d ⟨x, y⟩ (coord m idx) < acc2.2 then (some idx, d ⟨x, y⟩ (coord m idx))
            else acc2)
          acc)
    ((none : Option Nat), floatMax)).1

/-- The node indices FindClosestNode scans, in scan order: all nodes of all
non-footway roads' ways, with multiplicity. -/
def roadPoints (m : RouteModel) : List Nat :=
  m.roads.foldl
    (fun acc road =>
      if road.type = RoadType.Footway then acc
      else acc ++ (wayGet m road.way).nodes)
    []

/-- RoutePlanner constructor: multiply each input coordinate by 0.01f, then
look up the closest nodes for start and end. -/
def routePlannerInit (d : Point → Point → ℚ) (m : RouteModel)
    (sx sy ex ey : ℚ) : Option Nat × Option Nat :=
  (findClosestNode d m (sx * 0.01) (sy * 0.01),
   findClosestNode d m (ex * 0.01) (ey * 0.01))

/-- Well-formed model: every road's way index and every way's node index is
in range.  The C++ indexing is undefined behaviour outside this set. -/
def WFModel (m : RouteModel) : Prop :=
  (∀ r ∈ m.roads, r.way < m.ways.length) ∧
  (∀ w ∈ m.ways, ∀ i ∈ w.nodes, i < m.snodes.length)

instance (m : RouteModel) : Decidable (WFModel m) :=
  inferInstanceAs (Decidable (_ ∧ _))

/-- What the code relies on about the float Euclidean distance
`sqrt ∘ sqDist`: globally strictly monotone in the squared distance, zero on
coincident points, below float max. -/
structure DistOk (d : Point → Point → ℚ) : Prop where
  order : ∀ p q r s, d p q < d r s ↔ sqDist p q < sqDist r s
  zero_self : ∀ p, d p p = 0
  lt_max : ∀ p q, d p q < floatMax

/-- Strictly monotone squashing of [0, ∞) into [0, 2) with value 1 at 1,
used to instantiate `DistOk` with exact rational arithmetic. -/
def squash2 (s : ℚ) : ℚ := 2 * s / (1 + s)

/-- Concrete distance function for witnesses: a squashed squared Euclidean
distance, order-isomorphic to the true float distance and agreeing with it
at squared distance 0 and 1. -/
def dW (p q : Point) : ℚ := squash2 (sqDist p q)

/-! Basic facts about the squared distance and the distance abstraction. -/

theorem sqDist_nonneg (p q : Point) : 0 ≤ sqDist p q := by
  unfold sqDist; positivity

theorem sqDist_self (p : Point) : sqDist p p = 0 := by
  simp [sqDist]

theorem sqDist_comm (p q : Point) : sqDist p q = sqDist q p := by
  unfold sqDist; ring

theorem sqDist_eq_zero_iff (p q : Point) : sqDist p q = 0 ↔ p = q := by
  unfold sqDist
  constructor
  · intro h
    have hx : (p.x - q.x) ^ 2 = 0 := by nlinarith [sq_nonneg (p.x - q.x), sq_nonneg (p.y - q.y)]
    have hy : (p.y - q.y) ^ 2 = 0 := by nlinarith [sq_nonneg (p.x - q.x), sq_nonneg (p.y - q.y)]
    have hx' : p.x = q.x := by nlinarith [sq_nonneg (p.x - q.x)]
    have hy' : p.y = q.y := by nlinarith [sq_nonneg (p.y - q.y)]
    cases p; cases q; simp_all
  · intro h; subst h; ring

theorem DistOk.le_iff {d : Point → Point → ℚ} (hd : DistOk d) (p q r s : Point) :
    d p q ≤ d r s ↔ sqDist p q ≤ sqDist r s := by
  rw [← not_lt, ← not_lt, hd.order]

theorem DistOk.nonneg {d : Point → Point → ℚ} (hd : DistOk d) (p q : Point) :
    0 ≤ d p q := by
  have h := (hd.le_iff p p p q).mpr (by rw [sqDist_self]; exact sqDist_nonneg p q)
  rwa [hd.zero_self] at h

theorem DistOk.symm {d : Point → Point → ℚ} (hd : DistOk d) (p q : Point) :
    d p q = d q p :=
  le_antisymm ((hd.le_iff p q q p).mpr (sqDist_comm p q).le)
    ((hd.le_iff q p p q).mpr (sqDist_comm q p).le)

theorem DistOk.eq_zero_iff {d : Point → Point → ℚ} (hd : DistOk d) (p q : Point) :
    d p q = 0 ↔ sqDist p q = 0 := by
  constructor
  · intro h
    by_contra hne
    have hpos : 0 < sqDist p q := lt_of_le_of_ne (sqDist_nonneg p q) (Ne.symm hne)
    have := (hd.order p p p q).mpr (by rw [sqDist_self]; exact hpos)
    rw [hd.zero_self, h] at this
    exact lt_irrefl 0 this
  · intro h
    have h1 : d p q ≤ d p p := (hd.le_iff p q p p).mpr (by rw [sqDist_self, h])
    rw [hd.zero_self] at h1
    exact le_antisymm h1 (hd.nonneg p q)

theorem DistOk.eq_zero_iff_pt {d : Point → Point → ℚ} (hd : DistOk d) (p q : Point) :
    d p q = 0 ↔ p = q := by
  rw [hd.eq_zero_iff, sqDist_eq_zero_iff]

theorem squash2_lt_squash2 {s t : ℚ} (hs : 0 ≤ s) (ht : 0 ≤ t) :
    squash2 s < squash2 t ↔ s < t := by
  unfold squash2
  rw [div_lt_div_iff (by linarith) (by linarith)]
  constructor
  · intro h; nlinarith
  · intro h; nlinarith

theorem squash2_lt_two {s : ℚ} (hs : 0 ≤ s) : squash2 s < 2 := by
  unfold squash2
  rw [div_lt_iff (by linarith)]
  nlinarith

theorem distOk_dW : DistOk dW := by
  refine ⟨?_, ?_, ?_⟩
  · intro p q r s
    exact squash2_lt_squash2 (sqDist_nonneg p q) (sqDist_nonneg r s)
  · intro p
    simp [dW, sqDist_self, squash2]
  · intro p q
    have h2 : squash2 (sqDist p q) < 2 := squash2_lt_two (sqDist_nonneg p q)
    have : (2 : ℚ) < floatMax := by norm_num [floatMax]
    exact lt_trans h2 this

theorem dW_one {p q : Point} (h : sqDist p q = 1) : dW p q = 1 := by
  norm_num [dW, h, squash2]

/-! Lemmas about NextNode. -/

instance (st : List NodeState) : IsTotal Nat (fGE st) :=
  ⟨fun a b => (le_total (fval (stGet st b)) (fval (stGet st a))).imp id id⟩

instance (st : List NodeState) : IsTrans Nat (fGE st) :=
  ⟨fun _ _ _ hab hbc => le_trans hbc hab⟩

theorem nextNode_spec (st : List NodeState) (ol : List Nat) (h : ol ≠ []) :
    (nextNode st ol).1 ∈ ol ∧
    (∀ x ∈ ol, fval (stGet st (nextNode st ol).1) ≤ fval (stGet st x)) ∧
    ((nextNode st ol).2 ++ [(nextNode st ol).1]).Perm ol := by
  have hperm : (List.insertionSort (fGE st) ol).Perm ol := List.perm_insertionSort _ ol
  have hsne : List.insertionSort (fGE st) ol ≠ [] := by
    intro hnil
    rw [hnil] at hperm
    exact h (List.Perm.eq_nil hperm.symm)
  have hsorted : List.Sorted (fGE st) (List.insertionSort (fGE st) ol) :=
    List.sorted_insertionSort _ ol
  have hlast : (List.insertionSort (fGE st) ol).getLast? =
      some ((List.insertionSort (fGE st) ol).getLast hsne) :=
    List.getLast?_eq_getLast _ hsne
  have hsplit : (List.insertionSort (fGE st) ol).dropLast ++
      [(List.insertionSort (fGE st) ol).getLast hsne] = List.insertionSort (fGE st) ol :=
    List.dropLast_append_getLast hsne
  have h1 : (nextNode st ol).1 = (List.insertionSort (fGE st) ol).getLast hsne := by
    simp [nextNode, hlast]
  have h2 : (nextNode st ol).2 = (List.insertionSort (fGE st) ol).dropLast := by
    simp [nextNode]
  refine ⟨?_, ?_, ?_⟩
  · exact hperm.mem_iff.mp (h1 ▸ List.getLast_mem hsne)
  · intro x hx
    have hxs : x ∈ List.insertionSort (fGE st) ol := hperm.mem_iff.mpr hx
    rw [← hsplit] at hxs hsorted
    rcases List.mem_append.mp hxs with hxd | hxl
    · have := (List.pairwise_append.mp hsorted).2.2 x hxd _ (List.mem_singleton_self _)
      rw [h1]
      exact this
    · rw [List.mem_singleton.mp hxl, h1]
  · rw [h1, h2, hsplit]
    exact hperm

theorem nextNode_length (st : List NodeState) (ol : List Nat) (h : ol ≠ []) :
    (nextNode st ol).2.length + 1 = ol.length := by
  have := (nextNode_spec st ol h).2.2.length_eq
  simpa using this

/-! Specification of FindNeighbor. -/

theorem fnStep_neg {d : Point → Point → ℚ} {m : RouteModel} {st : List NodeState}
    {this x : Nat} (h : ¬validCand d m st this x) (acc : Option Nat) :
    fnStep d m st this acc x = acc := by
  unfold fnStep
  rw [if_neg h]

theorem fnStep_none_pos {d : Point → Point → ℚ} {m : RouteModel} {st : List NodeState}
    {this x : Nat} (h : validCand d m st this x) :
    fnStep d m st this none x = some x := by
  unfold fnStep
  rw [if_pos h]

theorem fnStep_some_lt {d : Point → Point → ℚ} {m : RouteModel} {st : List NodeState}
    {this x c : Nat} (h : validCand d m st this x)
    (hlt : d (coord m this) (coord m x) < d (coord m this) (coord m c)) :
    fnStep d m st this (some c) x = some x := by
  unfold fnStep
  rw [if_pos h]
  exact if_pos hlt

theorem fnStep_some_ge {d : Point → Point → ℚ} {m : RouteModel} {st : List NodeState}
    {this x c : Nat} (h : validCand d m st this x)
    (hge : ¬d (coord m this) (coord m x) < d (coord m this) (coord m c)) :
    fnStep d m st this (some c) x = some c := by
  unfold fnStep
  rw [if_pos h]
  exact if_neg hge

theorem findNeighborAux (d : Point → Point → ℚ) (m : RouteModel)
    (st : List NodeState) (this : Nat) (l : List Nat) :
    ∀ acc : Option Nat,
      (∀ c, acc = some c → validCand d m st this c) →
      ((l.foldl (fnStep d m st this) acc = none →
          acc = none ∧ ∀ u ∈ l, ¬validCand d m st this u) ∧
       (∀ nb, l.foldl (fnStep d m st this) acc = some nb →
          validCand d m st this nb ∧
          (nb ∈ l ∨ acc = some nb) ∧
          (∀ u ∈ l, validCand d m st this u →
            d (coord m this) (coord m nb) ≤ d (coord m this) (coord m u)) ∧
          (∀ c, acc = some c →
            d (coord m this) (coord m nb) ≤ d (coord m this) (coord m c)))) := by
  induction l with
  | nil =>
      intro acc hacc
      simp only [List.foldl_nil]
      refine ⟨fun h => ⟨h, by simp⟩, fun nb hnb => ?_⟩
      refine ⟨hacc nb hnb, Or.inr hnb, by simp, fun c hc => ?_⟩
      rw [hnb] at hc
      cases hc
      exact le_refl _
  | cons x xs ih =>
      intro acc hacc
      rw [List.foldl_cons]
      by_cases hval : validCand d m st this x
      · cases acc with
        | none =>
            rw [fnStep_none_pos hval]
            have ihx := ih (some x) fun c hcx => by cases hcx; exact hval
            refine ⟨fun h => absurd (ihx.1 h).1 (by simp), fun nb hnb => ?_⟩
            obtain ⟨hvnb, hmem, hmin, haccmin⟩ := ihx.2 nb hnb
            refine ⟨hvnb, ?_, ?_, ?_⟩
            · rcases hmem with h1 | h1
              · exact Or.inl (List.mem_cons_of_mem _ h1)
              · cases h1; exact Or.inl (List.mem_cons_self _ _)
            · intro u hu hvu
              rcases List.mem_cons.mp hu with h1 | h1
              · subst h1; exact haccmin u rfl
              · exact hmin u h1 hvu
            · intro c hcc; cases hcc
        | some c0 =>
            have hvc0 : validCand d m st this c0 := hacc c0 rfl
            by_cases hlt :
                d (coord m this) (coord m x) < d (coord m this) (coord m c0)
            · rw [fnStep_some_lt hval hlt]
              have ihx := ih (some x) fun c hcx => by cases hcx; exact hval
              refine ⟨fun h => absurd (ihx.1 h).1 (by simp), fun nb hnb => ?_⟩
              obtain ⟨hvnb, hmem, hmin, haccmin⟩ := ihx.2 nb hnb
              refine ⟨hvnb, ?_, ?_, ?_⟩
              · rcases hmem with h1 | h1
                · exact Or.inl (List.mem_cons_of_mem _ h1)
                · cases h1; exact Or.inl (List.mem_cons_self _ _)
              · intro u hu hvu
                rcases List.mem_cons.mp hu with h1 | h1
                · subst h1; exact haccmin u rfl
                · exact hmin u h1 hvu
              · intro c hcc
                cases hcc
                exact le_trans (haccmin x rfl) (le_of_lt hlt)
            · rw [fnStep_some_ge hval hlt]
              have ihx := ih (some c0) fun c hcx => by cases hcx; exact hvc0
              refine ⟨fun h => absurd (ihx.1 h).1 (by simp), fun nb hnb => ?_⟩
              obtain ⟨hvnb, hmem, hmin, haccmin⟩ := ihx.2 nb hnb
              refine ⟨hvnb, ?_, ?_, ?_⟩
              · rcases hmem with h1 | h1
                · exact Or.inl (List.mem_cons_of_mem _ h1)
                · cases h1; exact Or.inr rfl
              · intro u hu hvu
                rcases List.mem_cons.mp hu with h1 | h1
                · subst h1
                  exact le_trans (haccmin c0 rfl) (le_of_not_lt hlt)
                · exact hmin u h1 hvu
              · intro c hcc
                cases hcc
                exact haccmin c0 rfl
      · rw [fnStep_neg hval]
        have ihx := ih acc hacc
        refine ⟨fun h => ?_, fun nb hnb => ?_⟩
        · obtain ⟨h1, h2⟩ := ihx.1 h
          refine ⟨h1, fun u hu => ?_⟩
          rcases List.mem_cons.mp hu with h3 | h3
          · subst h3; exact hval
          · exact h2 u h3
        · obtain ⟨hvnb, hmem, hmin, haccmin⟩ := ihx.2 nb hnb
          refine ⟨hvnb, ?_, ?_, haccmin⟩
          · rcases hmem with h1 | h1
            · exact Or.inl (List.mem_cons_of_mem _ h1)
            · exact Or.inr h1
          · intro u hu hvu
            rcases List.mem_cons.mp hu with h1 | h1
            · subst h1; exact absurd hvu hval
            · exact hmin u h1 hvu

theorem findNeighbor_some_spec {d : Point → Point → ℚ} {m : RouteModel}
    {st : List NodeState} {this : Nat} {l : List Nat} {nb : Nat}
    (h : findNeighbor d m st this l = some nb) :
    validCand d m st this nb ∧ nb ∈ l ∧
    (∀ u ∈ l, validCand d m st this u →
      d (coord m this) (coord m nb) ≤ d (coord m this) (coord m u)) := by
  have h0 := (findNeighborAux d m st this l none (by intro c hc; cases hc)).2 nb h
  obtain ⟨hv, hmem, hmin, _⟩ := h0
  refine ⟨hv, ?_, hmin⟩
  rcases hmem with h1 | h1
  · exact h1
  · cases h1

theorem findNeighbor_none_spec {d : Point → Point → ℚ} {m : RouteModel}
    {st : List NodeState} {this : Nat} {l : List Nat}
    (h : findNeighbor d m st this l = none) :
    ∀ u ∈ l, ¬validCand d m st this u :=
  ((findNeighborAux d m st this l none (by intro c hc; cases hc)).1 h).2

theorem findNeighbor_isSome {d : Point → Point → ℚ} {m : RouteModel}
    {st : List NodeState} {this : Nat} {l : List Nat} {u : Nat}
    (hu : u ∈ l) (hv : validCand d m st this u) :
    ∃ nb, findNeighbor d m st this l = some nb := by
  cases h : findNeighbor d m st this l with
  | none => exact absurd hv (findNeighbor_none_spec h u hu)
  | some nb => exact ⟨nb, rfl⟩

/-! Lemmas about FindNeighbors and the node-to-road map. -/

theorem findNeighborsAux (d : Point → Point → ℚ) (m : RouteModel)
    (st : List NodeState) (n : Nat) :
    ∀ (rs : List Road) (init : List Nat),
      rs.foldl
          (fun acc road =>
            match findNeighbor d m st n (wayGet m road.way).nodes with
            | some nb => acc ++ [nb]
            | none => acc)
          init =
        init ++ rs.filterMap
          (fun road => findNeighbor d m st n (wayGet m road.way).nodes) := by
  intro rs
  induction rs with
  | nil => intro init; simp
  | cons road rs ih =>
      intro init
      rw [List.foldl_cons]
      cases hfx : findNeighbor d m st n (wayGet m road.way).nodes with
      | none => simp only [hfx]; rw [ih]; simp [List.filterMap_cons, hfx]
      | some b => simp only [hfx]; rw [ih]; simp [List.filterMap_cons, hfx]

theorem findNeighbors_eq (d : Point → Point → ℚ) (m : RouteModel)
    (st : List NodeState) (n : Nat) :
    findNeighbors d m st n =
      (nodeToRoad m n).filterMap
        (fun road => findNeighbor d m st n (wayGet m road.way).nodes) := by
  unfold findNeighbors
  rw [findNeighborsAux]
  simp

theorem nodeToRoadAux (m : RouteModel) (idx : Nat) :
    ∀ (rs : List Road) (init : List Road) (r : Road),
      (r ∈ rs.foldl
          (fun acc road =>
            if road.type = RoadType.Footway then acc
            else acc ++ ((wayGet m road.way).nodes.filter (· = idx)).map fun _ => road)
          init ↔
        r ∈ init ∨
          (r ∈ rs ∧ r.type ≠ RoadType.Footway ∧ idx ∈ (wayGet m r.way).nodes)) := by
  intro rs
  induction rs with
  | nil => intro init r; simp
  | cons road rs ih =>
      intro init r
      rw [List.foldl_cons]
      by_cases ht : road.type = RoadType.Footway
      · rw [if_pos ht, ih]
        constructor
        · rintro (h | ⟨h1, h2, h3⟩)
          · exact Or.inl h
          · exact Or.inr ⟨List.mem_cons_of_mem _ h1, h2, h3⟩
        · rintro (h | ⟨h1, h2, h3⟩)
          · exact Or.inl h
          · rcases List.mem_cons.mp h1 with h4 | h4
            · subst h4; exact absurd ht h2
            · exact Or.inr ⟨h4, h2, h3⟩
      · rw [if_neg ht, ih]
        have hmap : r ∈ ((wayGet m road.way).nodes.filter (· = idx)).map
            (fun _ => road) ↔ r = road ∧ idx ∈ (wayGet m road.way).nodes := by
          simp only [List.mem_map, List.mem_filter]
          constructor
          · rintro ⟨a, ⟨ha1, ha2⟩, ha3⟩
            have : a = idx := by simpa using ha2
            subst this
            exact ⟨ha3.symm, ha1⟩
          · rintro ⟨h1, h2⟩
            exact ⟨idx, ⟨h2, by simp⟩, h1.symm⟩
        constructor
        · rintro (h | ⟨h1, h2, h3⟩)
          · rcases List.mem_append.mp h with h4 | h4
            · exact Or.inl h4
            · obtain ⟨h5, h6⟩ := hmap.mp h4
              subst h5
              exact Or.inr ⟨List.mem_cons_self _ _, ht, h6⟩
          · exact Or.inr ⟨List.mem_cons_of_mem _ h1, h2, h3⟩
        · rintro (h | ⟨h1, h2, h3⟩)
          · exact Or.inl (List.mem_append.mpr (Or.inl h))
          · rcases List.mem_cons.mp h1 with h4 | h4
            · subst h4
              exact Or.inl (List.mem_append.mpr (Or.inr (hmap.mpr ⟨rfl, h3⟩)))
            · exact Or.inr ⟨h4, h2, h3⟩

theorem mem_nodeToRoad {m : RouteModel} {idx : Nat} {r : Road} :
    r ∈ nodeToRoad m idx ↔
      r ∈ m.roads ∧ r.type ≠ RoadType.Footway ∧ idx ∈ (wayGet m r.way).nodes := by
  unfold nodeToRoad
  rw [nodeToRoadAux]
  simp

theorem mem_findNeighbors {d : Point → Point → ℚ} {m : RouteModel}
    {st : List NodeState} {n x : Nat} :
    x ∈ findNeighbors d m st n ↔
      ∃ road ∈ nodeToRoad m n,
        findNeighbor d m st n (wayGet m road.way).nodes = some x := by
  rw [findNeighbors_eq, List.mem_filterMap]

/-- Every listed neighbour is an unvisited node of a way of a non-footway
road through the scanned node. -/
theorem findNeighbors_sound {d : Point → Point → ℚ} {m : RouteModel}
    {st : List NodeState} {n x : Nat} (h : x ∈ findNeighbors d m st n) :
    ∃ road ∈ m.roads, road.type ≠ RoadType.Footway ∧
      n ∈ (wayGet m road.way).nodes ∧ x ∈ (wayGet m road.way).nodes ∧
      validCand d m st n x := by
  obtain ⟨road, hr, hfn⟩ := mem_findNeighbors.mp h
  obtain ⟨hr1, hr2, hr3⟩ := mem_nodeToRoad.mp hr
  obtain ⟨hv, hmem, _⟩ := findNeighbor_some_spec hfn
  exact ⟨road, hr1, hr2, hr3, hmem, hv⟩

/-! State update helpers. -/

theorem stGet_set_ne {st : List NodeState} {i j : Nat} (h : i ≠ j)
    (v : NodeState) : stGet (st.set i v) j = stGet st j := by
  simp [stGet, List.getD_eq_getElem?_getD, List.getElem?_set_ne h]

theorem stGet_set_self {st : List NodeState} {i : Nat} (h : i < st.length)
    (v : NodeState) : stGet (st.set i v) i = v := by
  simp [stGet, List.getD_eq_getElem?_getD, List.getElem?_set_self h]

/-- Indices of unvisited nodes, the quantity that shrinks as the search
marks nodes visited. -/
def unvFin (st : List NodeState) : Finset Nat :=
  (Finset.range st.length).filter fun i => (stGet st i).visited = false

/-- Termination measure of the AStarSearch loop. -/
def searchMeasure (st : List NodeState) (ol : List Nat) : Nat :=
  2 * (unvFin st).card + ol.length

theorem unvFin_set_visited {st : List NodeState} {nb : Nat}
    (v : NodeState) (hv : v.visited = true) :
    unvFin (st.set nb v) = (unvFin st).erase nb := by
  ext i
  simp only [unvFin, Finset.mem_filter, Finset.mem_range, Finset.mem_erase,
    List.length_set]
  by_cases hi : i = nb
  · subst hi
    constructor
    · rintro ⟨h1, h2⟩
      rw [stGet_set_self h1 v] at h2
      rw [hv] at h2
      cases h2
    · rintro ⟨h1, _⟩
      exact absurd rfl h1
  · rw [stGet_set_ne (Ne.symm hi) v]
    constructor
    · rintro ⟨h1, h2⟩
      exact ⟨hi, h1, h2⟩
    · rintro ⟨_, h1, h2⟩
      exact ⟨h1, h2⟩

/-! Lemmas about AddNeighbors. -/

theorem addAux_cons (d : Point → Point → ℚ) (m : RouteModel) (endIdx cur : Nat)
    (st : List NodeState) (ol : List Nat) (nb : Nat) (ns : List Nat) :
    addAux d m endIdx cur st ol (nb :: ns) =
      addAux d m endIdx cur (addStep d m endIdx cur (st, ol) nb).1
        (addStep d m endIdx cur (st, ol) nb).2 ns := by
  simp [addAux, List.foldl_cons]

theorem addStep_unvisited {d : Point → Point → ℚ} {m : RouteModel}
    {endIdx cur : Nat} {st : List NodeState} {ol : List Nat} {nb : Nat}
    (h : (stGet st nb).visited = false) :
    addStep d m endIdx cur (st, ol) nb =
      (st.set nb
        { parent := some cur
          h_value := d (coord m nb) (coord m endIdx)
          g_value := (stGet st cur).g_value + d (coord m cur) (coord m nb)
          visited := true },
       ol ++ [nb]) := by
  simp [addStep, h]

theorem addStep_visited {d : Point → Point → ℚ} {m : RouteModel}
    {endIdx cur : Nat} {st : List NodeState} {ol : List Nat} {nb : Nat}
    (h : (stGet st nb).visited = true) :
    addStep d m endIdx cur (st, ol) nb = (st, ol) := by
  simp [addStep, h]

theorem addAux_length (d : Point → Point → ℚ) (m : RouteModel) (endIdx cur : Nat) :
    ∀ (ns : List Nat) (st : List NodeState) (ol : List Nat),
      (addAux d m endIdx cur st ol ns).1.length = st.length := by
  intro ns
  induction ns with
  | nil => intro st ol; rfl
  | cons nb ns ih =>
      intro st ol
      rw [addAux_cons]
      by_cases h : (stGet st nb).visited = false
      · rw [addStep_unvisited h]
        rw [ih]
        exact List.length_set st nb _
      · rw [addStep_visited (by simpa using h)]
        exact ih st ol

theorem addAux_pres (d : Point → Point → ℚ) (m : RouteModel) (endIdx cur : Nat) :
    ∀ (ns : List Nat) (st : List NodeState) (ol : List Nat) (i : Nat),
      (stGet st i).visited = true →
      stGet (addAux d m endIdx cur st ol ns).1 i = stGet st i := by
  intro ns
  induction ns with
  | nil => intro st ol i _; rfl
  | cons nb ns ih =>
      intro st ol i hi
      rw [addAux_cons]
      by_cases h : (stGet st nb).visited = false
      · rw [addStep_unvisited h]
        have hne : nb ≠ i := by
          intro he
          rw [he, hi] at h
          cases h
        rw [ih _ _ i (by rw [stGet_set_ne hne]; exact hi), stGet_set_ne hne]
      · rw [addStep_visited (by simpa using h)]
        exact ih st ol i hi

theorem addAux_mono (d : Point → Point → ℚ) (m : RouteModel) (endIdx cur : Nat)
    (ns : List Nat) (st : List NodeState) (ol : List Nat) (i : Nat)
    (hi : (stGet st i).visited = true) :
    (stGet (addAux d m endIdx cur st ol ns).1 i).visited = true := by
  rw [addAux_pres d m endIdx cur ns st ol i hi]
  exact hi

theorem addAux_listed (d : Point → Point → ℚ) (m : RouteModel) (endIdx cur : Nat) :
    ∀ (ns : List Nat) (st : List NodeState) (ol : List Nat) (x : Nat),
      x ∈ ns → x < st.length →
      (stGet (addAux d m endIdx cur st ol ns).1 x).visited = true := by
  intro ns
  induction ns with
  | nil => intro st ol x hx _; cases hx
  | cons nb ns ih =>
      intro st ol x hx hlt
      rw [addAux_cons]
      by_cases h : (stGet st nb).visited = false
      · rw [addStep_unvisited h]
        rcases List.mem_cons.mp hx with h1 | h1
        · subst h1
          exact addAux_mono d m endIdx cur ns _ _ x
            (by rw [stGet_set_self hlt])
        · exact ih _ _ x h1 (by rw [List.length_set]; exact hlt)
      · rw [addStep_visited (by simpa using h)]
        rcases List.mem_cons.mp hx with h1 | h1
        · subst h1
          exact addAux_mono d m endIdx cur ns _ _ x (by simpa using h)
        · exact ih st ol x h1 hlt

theorem addAux_grows (d : Point → Point → ℚ) (m : RouteModel) (endIdx cur : Nat) :
    ∀ (ns : List Nat) (st : List NodeState) (ol : List Nat) (x : Nat),
      x ∈ ol → x ∈ (addAux d m endIdx cur st ol ns).2 := by
  intro ns
  induction ns with
  | nil => intro st ol x hx; exact hx
  | cons nb ns ih =>
      intro st ol x hx
      rw [addAux_cons]
      by_cases h : (stGet st nb).visited = false
      · rw [addStep_unvisited h]
        exact ih _ _ x (List.mem_append.mpr (Or.inl hx))
      · rw [addStep_visited (by simpa using h)]
        exact ih st ol x hx

theorem addAux_flip (d : Point → Point → ℚ) (m : RouteModel) (endIdx cur : Nat) :
    ∀ (ns : List Nat) (st : List NodeState) (ol : List Nat) (x : Nat),
      (stGet st x).visited = false →
      (stGet (addAux d m endIdx cur st ol ns).1 x).visited = true →
      x ∈ (addAux d m endIdx cur st ol ns).2 := by
  intro ns
  induction ns with
  | nil =>
      intro st ol x hx hx'
      rw [show (addAux d m endIdx cur st ol []).1 = st from rfl] at hx'
      rw [hx] at hx'
      cases hx'
  | cons nb ns ih =>
      intro st ol x hx hx'
      rw [addAux_cons] at hx' ⊢
      by_cases h : (stGet st nb).visited = false
      · rw [addStep_unvisited h] at hx' ⊢
        by_cases hxe : x = nb
        · subst hxe
          exact addAux_grows d m endIdx cur ns _ _ x
            (List.mem_append.mpr (Or.inr (List.mem_singleton_self x)))
        · exact ih _ _ x (by rw [stGet_set_ne (Ne.symm hxe)]; exact hx) hx'
      · rw [addStep_visited (by simpa using h)] at hx' ⊢
        exact ih st ol x hx hx'

theorem addAux_ol_shape (d : Point → Point → ℚ) (m : RouteModel) (endIdx cur : Nat) :
    ∀ (ns : List Nat) (st : List NodeState) (ol : List Nat),
      (∀ x ∈ ns, x < st.length) →
      ∃ extra,
        (addAux d m endIdx cur st ol ns).2 = ol ++ extra ∧
        ∀ x ∈ extra, x ∈ ns ∧ (stGet st x).visited = false ∧
          (stGet (addAux d m endIdx cur st ol ns).1 x).visited = true ∧
          (stGet (addAux d m endIdx cur st ol ns).1 x).parent = some cur := by
  intro ns
  induction ns with
  | nil =>
      intro st ol _
      exact ⟨[], by simp [addAux], fun x hx => absurd hx (List.not_mem_nil x)⟩
  | cons nb ns ih =>
      intro st ol hrange
      rw [addAux_cons]
      by_cases h : (stGet st nb).visited = false
      · rw [addStep_unvisited h]
        have hlt : nb < st.length := hrange nb (List.mem_cons_self _ _)
        obtain ⟨extra1, he1, he2⟩ := ih _ (ol ++ [nb])
          (fun x hx => by rw [List.length_set]; exact hrange x (List.mem_cons_of_mem _ hx))
        refine ⟨nb :: extra1, by rw [he1]; simp, fun x hx => ?_⟩
        rcases List.mem_cons.mp hx with h1 | h1
        · rw [h1]
          have hfin := addAux_pres d m endIdx cur ns
            (st.set nb
              { parent := some cur
                h_value := d (coord m nb) (coord m endIdx)
                g_value := (stGet st cur).g_value + d (coord m cur) (coord m nb)
                visited := true })
            (ol ++ [nb]) nb (by rw [stGet_set_self hlt])
          refine ⟨List.mem_cons_self _ _, h, ?_, ?_⟩
          · rw [hfin, stGet_set_self hlt]
          · rw [hfin, stGet_set_self hlt]
        · obtain ⟨h2, h3, h4, h5⟩ := he2 x h1
          refine ⟨List.mem_cons_of_mem _ h2, ?_, h4, h5⟩
          by_cases hxe : x = nb
          · subst hxe
            rw [stGet_set_self hlt] at h3
            cases h3
          · rw [stGet_set_ne (Ne.symm hxe)] at h3
            exact h3
      · rw [addStep_visited (by simpa using h)]
        obtain ⟨extra1, he1, he2⟩ := ih st ol
          (fun x hx => hrange x (List.mem_cons_of_mem _ hx))
        refine ⟨extra1, he1, fun x hx => ?_⟩
        obtain ⟨h2, h3, h4, h5⟩ := he2 x hx
        exact ⟨List.mem_cons_of_mem _ h2, h3, h4, h5⟩

theorem addAux_nodup (d : Point → Point → ℚ) (m : RouteModel) (endIdx cur : Nat) :
    ∀ (ns : List Nat) (st : List NodeState) (ol : List Nat),
      (∀ x ∈ ns, x < st.length) → ol.Nodup →
      (∀ x ∈ ol, (stGet st x).visited = true) →
      (addAux d m endIdx cur st ol ns).2.Nodup ∧
      ∀ x ∈ (addAux d m endIdx cur st ol ns).2,
        (stGet (addAux d m endIdx cur st ol ns).1 x).visited = true := by
  intro ns
  induction ns with
  | nil => intro st ol _ h1 h2; exact ⟨h1, h2⟩
  | cons nb ns ih =>
      intro st ol hrange hnd hvis
      rw [addAux_cons]
      by_cases h : (stGet st nb).visited = false
      · rw [addStep_unvisited h]
        have hlt : nb < st.length := hrange nb (List.mem_cons_self _ _)
        have hnbol : nb ∉ ol := by
          intro hmem
          rw [hvis nb hmem] at h
          cases h
        refine ih _ (ol ++ [nb])
          (fun x hx => by rw [List.length_set]; exact hrange x (List.mem_cons_of_mem _ hx))
          (by simp [List.nodup_append, hnd, hnbol])
          (fun x hx => ?_)
        rcases List.mem_append.mp hx with h1 | h1
        · have hne : nb ≠ x := by
            intro he; subst he; exact hnbol h1
          rw [stGet_set_ne hne]
          exact hvis x h1
        · rw [List.mem_singleton.mp h1, stGet_set_self hlt]
      · rw [addStep_visited (by simpa using h)]
        exact ih st ol (fun x hx => hrange x (List.mem_cons_of_mem _ hx)) hnd hvis

theorem addAux_measure (d : Point → Point → ℚ) (m : RouteModel) (endIdx cur : Nat) :
    ∀ (ns : List Nat) (st : List NodeState) (ol : List Nat),
      (∀ x ∈ ns, x < st.length) →
      searchMeasure (addAux d m endIdx cur st ol ns).1
          (addAux d m endIdx cur st ol ns).2 ≤ searchMeasure st ol := by
  intro ns
  induction ns with
  | nil => intro st ol _; exact le_refl _
  | cons nb ns ih =>
      intro st ol hrange
      rw [addAux_cons]
      by_cases h : (stGet st nb).visited = false
      · rw [addStep_unvisited h]
        have hlt : nb < st.length := hrange nb (List.mem_cons_self _ _)
        have hstep := ih
          (st.set nb
            { parent := some cur
              h_value := d (coord m nb) (coord m endIdx)
              g_value := (stGet st cur).g_value + d (coord m cur) (coord m nb)
              visited := true })
          (ol ++ [nb])
          (fun x hx => by rw [List.length_set]; exact hrange x (List.mem_cons_of_mem _ hx))
        refine le_trans hstep ?_
        have hmem : nb ∈ unvFin st := by
          simp [unvFin, Finset.mem_filter, Finset.mem_range, hlt, h]
        rw [searchMeasure, searchMeasure,
          unvFin_set_visited _ rfl, Finset.card_erase_of_mem hmem]
        have hpos : 0 < (unvFin st).card := Finset.card_pos.mpr ⟨nb, hmem⟩
        simp only [List.length_append, List.length_singleton]
        omega
      · rw [addStep_visited (by simpa using h)]
        exact ih st ol (fun x hx => hrange x (List.mem_cons_of_mem _ hx))

/-! Parent chains and ConstructFinalPath. -/

/-- Chain st n c: c is the complete parent walk from n, i.e. the list
[n, parent n, parent (parent n), ...] ending at a node whose parent is null. -/
inductive Chain (st : List NodeState) : Nat → List Nat → Prop
  | base (n : Nat) : (stGet st n).parent = none → Chain st n [n]
  | cons (n p : Nat) (c : List Nat) :
      (stGet st n).parent = some p → Chain st p c → Chain st n (n :: c)

theorem Chain.head {st : List NodeState} {n : Nat} {c : List Nat}
    (h : Chain st n c) : c.head? = some n := by
  cases h <;> rfl

theorem Chain.ne_nil {st : List NodeState} {n : Nat} {c : List Nat}
    (h : Chain st n c) : c ≠ [] := by
  cases h <;> simp

/-- Sum of the hop distances along a node list, the value ConstructFinalPath
accumulates before scaling. -/
def chainDist (d : Point → Point → ℚ) (m : RouteModel) : List Nat → ℚ
  | [] => 0
  | [_] => 0
  | a :: b :: rest => d (coord m a) (coord m b) + chainDist d m (b :: rest)

theorem chainDist_nonneg {d : Point → Point → ℚ} (hd : DistOk d)
    (m : RouteModel) : ∀ c : List Nat, 0 ≤ chainDist d m c := by
  intro c
  induction c with
  | nil => simp [chainDist]
  | cons a c ih =>
      cases c with
      | nil => simp [chainDist]
      | cons b rest =>
          rw [chainDist]
          have := hd.nonneg (coord m a) (coord m b)
          linarith

theorem chainDist_pos {d : Point → Point → ℚ} (hd : DistOk d) (m : RouteModel)
    (a b : Nat) (rest : List Nat)
    (hne : d (coord m a) (coord m b) ≠ 0) :
    0 < chainDist d m (a :: b :: rest) := by
  rw [chainDist]
  have h1 : 0 < d (coord m a) (coord m b) :=
    lt_of_le_of_ne (hd.nonneg _ _) (Ne.symm hne)
  have h2 := chainDist_nonneg hd m (b :: rest)
  linarith

theorem constructGo_chain (d : Point → Point → ℚ) (m : RouteModel)
    (st : List NodeState) {n : Nat} {c : List Nat} (hc : Chain st n c) :
    ∀ (fuel : Nat) (acc : List Nat) (dist : ℚ), c.length ≤ fuel →
      constructGo d m st fuel n acc dist =
        some ((acc ++ c).reverse, (dist + chainDist d m c) * m.metricScale) := by
  induction hc with
  | base n hp =>
      intro fuel acc dist hfuel
      cases fuel with
      | zero => simp at hfuel
      | succ f =>
          rw [constructGo, hp]
          simp [chainDist]
  | cons n p c hp hchain ih =>
      intro fuel acc dist hfuel
      cases fuel with
      | zero => simp at hfuel
      | succ f =>
          rw [constructGo, hp]
          dsimp only
          have hlen : c.length ≤ f := by
            simp only [List.length_cons] at hfuel
            omega
          rw [ih f (acc ++ [n]) (dist + d (coord m n) (coord m p)) hlen]
          have hhead : c.head? = some p := hchain.head
          cases c with
          | nil => cases hhead
          | cons b rest =>
              have hb : b = p := by
                simpa using hhead
              subst hb
              rw [chainDist]
              have h1 : (acc ++ [n]) ++ b :: rest = acc ++ n :: b :: rest := by simp
              have h2 : dist + d (coord m n) (coord m b) + chainDist d m (b :: rest) =
                  dist + (d (coord m n) (coord m b) + chainDist d m (b :: rest)) := by
                ring
              rw [h1, h2]

/-- Chains of visited nodes survive AddNeighbors, since visited entries are
never rewritten. -/
theorem chain_addAux (d : Point → Point → ℚ) (m : RouteModel) (endIdx cur : Nat)
    (ns : List Nat) (st : List NodeState) (ol : List Nat) {n : Nat} {c : List Nat}
    (hc : Chain st n c) (hvis : ∀ x ∈ c, (stGet st x).visited = true) :
    Chain (addAux d m endIdx cur st ol ns).1 n c := by
  induction hc with
  | base n hp =>
      refine Chain.base n ?_
      rw [addAux_pres d m endIdx cur ns st ol n (hvis n (List.mem_singleton_self n))]
      exact hp
  | cons n p c hp hchain ih =>
      refine Chain.cons n p c ?_ ?_
      · rw [addAux_pres d m endIdx cur ns st ol n (hvis n (List.mem_cons_self _ _))]
        exact hp
      · exact ih fun x hx => hvis x (List.mem_cons_of_mem _ hx)

theorem chain_length_le {st : List NodeState} {n : Nat} {c : List Nat}
    (hc : Chain st n c) (hnd : c.Nodup) (hlt : ∀ x ∈ c, x < st.length) :
    c.length ≤ st.length := by
  have h1 : c.toFinset.card = c.length := List.toFinset_card_of_nodup hnd
  have h2 : c.toFinset ⊆ Finset.range st.length := by
    intro x hx
    rw [Finset.mem_range]
    exact hlt x (List.mem_toFinset.mp hx)
  have := Finset.card_le_card h2
  rw [h1, Finset.card_range] at this
  exact this

/-! The search invariant. -/

theorem nodes_range {m : RouteModel} (hwf : WFModel m) {road : Road}
    (hr : road ∈ m.roads) {i : Nat} (hi : i ∈ (wayGet m road.way).nodes) :
    i < m.snodes.length := by
  have hw : road.way < m.ways.length := hwf.1 road hr
  have hmem : wayGet m road.way ∈ m.ways := by
    have : (wayGet m road.way) = m.ways[road.way] := by
      simp [wayGet, List.getD_eq_getElem?_getD, List.getElem?_eq_getElem hw]
    rw [this]
    exact List.getElem_mem hw
  exact hwf.2 _ hmem i hi

theorem findNeighbors_range {d : Point → Point → ℚ} {m : RouteModel}
    (hwf : WFModel m) {st : List NodeState} {n x : Nat}
    (h : x ∈ findNeighbors d m st n) : x < m.snodes.length := by
  obtain ⟨road, hr, _, _, hx, _⟩ := findNeighbors_sound h
  exact nodes_range hwf hr hx

structure SearchInv (m : RouteModel) (start endIdx : Nat) (st : List NodeState)
    (ol : List Nat) : Prop where
  len : st.length = m.snodes.length
  startLt : start < st.length
  startVisited : (stGet st start).visited = true
  olRange : ∀ n ∈ ol, n < st.length
  olVisited : ∀ n ∈ ol, (stGet st n).visited = true
  olNodup : ol.Nodup
  chains : ∀ n, (stGet st n).visited = true →
    ∃ c, Chain st n c ∧ c.getLast? = some start ∧ c.Nodup ∧
      ∀ x ∈ c, x < st.length ∧ (stGet st x).visited = true
  endInOl : (stGet st endIdx).visited = true → endIdx ∈ ol

theorem initialState_length (m : RouteModel) (start : Nat) :
    (initialState m start).length = m.snodes.length := by
  simp [initialState]

theorem stGet_initialState (m : RouteModel) {start : Nat}
    (hs : start < m.snodes.length) (n : Nat) :
    stGet (initialState m start) n =
      if n = start then { initState with visited := true } else initState := by
  by_cases h : n = start
  · subst h
    rw [if_pos rfl]
    unfold initialState
    exact stGet_set_self (by simpa using hs) _
  · rw [if_neg h]
    unfold initialState
    rw [stGet_set_ne fun he => h he.symm]
    simp [stGet, List.getD_eq_getElem?_getD, List.getElem?_replicate]
    split <;> rfl

theorem inv_init (m : RouteModel) (start endIdx : Nat)
    (hs : start < m.snodes.length) :
    SearchInv m start endIdx (initialState m start) [start] := by
  have hvis : ∀ n, (stGet (initialState m start) n).visited = true → n = start := by
    intro n hn
    by_contra h
    rw [stGet_initialState m hs n, if_neg h] at hn
    cases hn
  have hstart : (stGet (initialState m start) start).visited = true := by
    rw [stGet_initialState m hs start, if_pos rfl]
  refine ⟨initialState_length m start, ?_, hstart, ?_, ?_, ?_, ?_, ?_⟩
  · rw [initialState_length m start]; exact hs
  · intro n hn
    rw [List.mem_singleton.mp hn, initialState_length m start]
    exact hs
  · intro n hn
    rw [List.mem_singleton.mp hn]
    exact hstart
  · exact List.nodup_singleton start
  · intro n hn
    rw [hvis n hn]
    refine ⟨[start], Chain.base start ?_, rfl, List.nodup_singleton start, ?_⟩
    · rw [stGet_initialState m hs start, if_pos rfl]
      rfl
    · intro x hx
      rw [List.mem_singleton.mp hx]
      exact ⟨by rw [initialState_length m start]; exact hs, hstart⟩
  · intro hn
    rw [hvis endIdx hn]
    exact List.mem_singleton_self start

theorem stepIter_eq (d : Point → Point → ℚ) (m : RouteModel) (endIdx : Nat)
    (st : List NodeState) (ol : List Nat) :
    stepIter d m endIdx (st, ol) =
      addAux d m endIdx (nextNode st ol).1 st (nextNode st ol).2
        (findNeighbors d m st (nextNode st ol).1) := rfl

theorem inv_step (d : Point → Point → ℚ) (m : RouteModel) (start endIdx : Nat)
    (hwf : WFModel m) (st : List NodeState) (ol : List Nat)
    (hinv : SearchInv m start endIdx st ol) (hne : ol ≠ [])
    (hcur : (nextNode st ol).1 ≠ endIdx) :
    SearchInv m start endIdx (stepIter d m endIdx (st, ol)).1
      (stepIter d m endIdx (st, ol)).2 := by
  obtain ⟨hmem, hmin, hperm⟩ := nextNode_spec st ol hne
  rw [stepIter_eq]
  set cur := (nextNode st ol).1 with hcurdef
  set rest := (nextNode st ol).2 with hrestdef
  set ns := findNeighbors d m st cur with hnsdef
  have hrest_sub : ∀ x ∈ rest, x ∈ ol := fun x hx =>
    hperm.mem_iff.mp (List.mem_append.mpr (Or.inl hx))
  have hrest_nodup : rest.Nodup := by
    have h1 : (rest ++ [cur]).Nodup := (hperm.nodup_iff).mpr hinv.olNodup
    exact (List.nodup_append.mp h1).1
  have hrest_vis : ∀ x ∈ rest, (stGet st x).visited = true := fun x hx =>
    hinv.olVisited x (hrest_sub x hx)
  have hcur_vis : (stGet st cur).visited = true := hinv.olVisited cur hmem
  have hns_range : ∀ x ∈ ns, x < st.length := by
    intro x hx
    rw [hinv.len]
    exact findNeighbors_range hwf hx
  obtain ⟨extra, hol_eq, hextra⟩ :=
    addAux_ol_shape d m endIdx cur ns st rest hns_range
  have hnodup := addAux_nodup d m endIdx cur ns st rest hns_range hrest_nodup hrest_vis
  have hlen : (addAux d m endIdx cur st rest ns).1.length = st.length :=
    addAux_length d m endIdx cur ns st rest
  have hnew_mem : ∀ x, (stGet st x).visited = false →
      (stGet (addAux d m endIdx cur st rest ns).1 x).visited = true →
      x ∈ extra := by
    intro x hx hx'
    have hmem2 := addAux_flip d m endIdx cur ns st rest x hx hx'
    rw [hol_eq] at hmem2
    rcases List.mem_append.mp hmem2 with h1 | h1
    · rw [hrest_vis x h1] at hx
      cases hx
    · exact h1
  refine ⟨hlen.trans hinv.len, ?_, ?_, ?_, ?_, hnodup.1, ?_, ?_⟩
  · rw [hlen]; exact hinv.startLt
  · exact addAux_mono d m endIdx cur ns st rest start hinv.startVisited
  · intro n hn
    rw [hol_eq] at hn
    rw [hlen]
    rcases List.mem_append.mp hn with h1 | h1
    · exact hinv.olRange n (hrest_sub n h1)
    · exact hns_range n (hextra n h1).1
  · exact hnodup.2
  · intro n hn
    cases hv : (stGet st n).visited with
    | true =>
        obtain ⟨c, hc1, hc2, hc3, hc4⟩ := hinv.chains n hv
        refine ⟨c, chain_addAux d m endIdx cur ns st rest hc1
          (fun x hx => (hc4 x hx).2), hc2, hc3, ?_⟩
        intro x hx
        refine ⟨by rw [hlen]; exact (hc4 x hx).1,
          addAux_mono d m endIdx cur ns st rest x (hc4 x hx).2⟩
    | false =>
        have hx_extra := hnew_mem n hv hn
        obtain ⟨hn_ns, hn_unvis, hn_vis', hn_par⟩ := hextra n hx_extra
        obtain ⟨c, hc1, hc2, hc3, hc4⟩ := hinv.chains cur hcur_vis
        have hc1' : Chain (addAux d m endIdx cur st rest ns).1 cur c :=
          chain_addAux d m endIdx cur ns st rest hc1 fun x hx => (hc4 x hx).2
        have hn_notin : n ∉ c := by
          intro hmemc
          rw [(hc4 n hmemc).2] at hv
          cases hv
        refine ⟨n :: c, Chain.cons n cur c hn_par hc1', ?_, ?_, ?_⟩
        · cases c with
          | nil => cases hc1.ne_nil rfl
          | cons a t => rw [List.getLast?_cons_cons]; exact hc2
        · exact List.nodup_cons.mpr ⟨hn_notin, hc3⟩
        · intro x hx
          rcases List.mem_cons.mp hx with h1 | h1
          · subst h1
            exact ⟨by rw [hlen]; exact hns_range x hn_ns, hn_vis'⟩
          · exact ⟨by rw [hlen]; exact (hc4 x h1).1,
              addAux_mono d m endIdx cur ns st rest x (hc4 x h1).2⟩
  · intro hn
    cases hv : (stGet st endIdx).visited with
    | true =>
        have h1 := hinv.endInOl hv
        have h2 : endIdx ∈ rest ++ [cur] := hperm.mem_iff.mpr h1
        rcases List.mem_append.mp h2 with h3 | h3
        · exact addAux_grows d m endIdx cur ns st rest endIdx h3
        · exact absurd (List.mem_singleton.mp h3).symm hcur
    | false =>
        rw [hol_eq]
        exact List.mem_append.mpr (Or.inr (hnew_mem endIdx hv hn))

/-! The road counting invariant, used for search completeness. -/

theorem ssubset_of_subset_card_lt {s t : Finset Nat} (h1 : s ⊆ t)
    (h2 : s.card < t.card) : s ⊂ t :=
  Finset.ssubset_iff_subset_ne.mpr
    ⟨h1, fun he => by rw [he] at h2; exact lt_irrefl _ h2⟩

theorem initialState_visited {m : RouteModel} {start : Nat}
    (hs : start < m.snodes.length) {n : Nat}
    (hn : (stGet (initialState m start) n).visited = true) : n = start := by
  by_contra h
  rw [stGet_initialState m hs n, if_neg h] at hn
  cases hn

theorem initialState_visited_start {m : RouteModel} {start : Nat}
    (hs : start < m.snodes.length) :
    (stGet (initialState m start) start).visited = true := by
  rw [stGet_initialState m hs start, if_pos rfl]

/-- Node set of a road's way. -/
def roadFin (m : RouteModel) (road : Road) : Finset Nat :=
  (wayGet m road.way).nodes.toFinset

/-- Visited nodes of a road. -/
def visFin (m : RouteModel) (st : List NodeState) (road : Road) : Finset Nat :=
  (roadFin m road).filter fun i => (stGet st i).visited = true

/-- Expanded nodes of a road: visited and no longer on the open list. -/
def expFin (m : RouteModel) (st : List NodeState) (ol : List Nat)
    (road : Road) : Finset Nat :=
  (roadFin m road).filter fun i => (stGet st i).visited = true ∧ i ∉ ol

/-- Counting invariant: on every non-footway road, either no node is
visited, or every node is visited, or strictly fewer nodes are expanded
than visited.  At exhaustion this forces every touched road to be fully
visited. -/
def RoadInv (m : RouteModel) (st : List NodeState) (ol : List Nat) : Prop :=
  ∀ road ∈ m.roads, road.type ≠ RoadType.Footway →
    visFin m st road = ∅ ∨ visFin m st road = roadFin m road ∨
    expFin m st ol road ⊂ visFin m st road

theorem roadInv_init (m : RouteModel) (start : Nat)
    (hs : start < m.snodes.length) :
    RoadInv m (initialState m start) [start] := by
  intro road hr ht
  by_cases hmem : start ∈ roadFin m road
  · right; right
    have hE : expFin m (initialState m start) [start] road = ∅ := by
      rw [Finset.eq_empty_iff_forall_not_mem]
      intro e he
      obtain ⟨_, h2, h3⟩ := Finset.mem_filter.mp he
      exact h3 (by rw [initialState_visited hs h2]; exact List.mem_singleton_self start)
    rw [hE, Finset.empty_ssubset]
    exact ⟨start, Finset.mem_filter.mpr ⟨hmem, initialState_visited_start hs⟩⟩
  · left
    rw [Finset.eq_empty_iff_forall_not_mem]
    intro i hi
    obtain ⟨h1, h2⟩ := Finset.mem_filter.mp hi
    rw [initialState_visited hs h2] at h1
    exact hmem h1

theorem roadInv_step (d : Point → Point → ℚ) (hd : DistOk d) (m : RouteModel)
    (hwf : WFModel m)
    (hinj : ∀ i j : Nat, i < m.snodes.length → j < m.snodes.length → i ≠ j →
      coord m i ≠ coord m j)
    (start endIdx : Nat) (st : List NodeState) (ol : List Nat)
    (hinv : SearchInv m start endIdx st ol) (hri : RoadInv m st ol)
    (hne : ol ≠ []) :
    RoadInv m (stepIter d m endIdx (st, ol)).1 (stepIter d m endIdx (st, ol)).2 := by
  obtain ⟨hmem, _, hperm⟩ := nextNode_spec st ol hne
  rw [stepIter_eq]
  set cur := (nextNode st ol).1 with hcurdef
  set rest := (nextNode st ol).2 with hrestdef
  set ns := findNeighbors d m st cur with hnsdef
  have hrest_sub : ∀ x ∈ rest, x ∈ ol := fun x hx =>
    hperm.mem_iff.mp (List.mem_append.mpr (Or.inl hx))
  have hcur_vis : (stGet st cur).visited = true := hinv.olVisited cur hmem
  have hcur_lt : cur < st.length := hinv.olRange cur hmem
  have hns_range : ∀ x ∈ ns, x < st.length := fun x hx => by
    rw [hinv.len]; exact findNeighbors_range hwf hx
  obtain ⟨extra, hol_eq, hextra⟩ :=
    addAux_ol_shape d m endIdx cur ns st rest hns_range
  intro road hr ht
  have hmono : visFin m st road ⊆
      visFin m (addAux d m endIdx cur st rest ns).1 road := by
    intro i hi
    obtain ⟨h1, h2⟩ := Finset.mem_filter.mp hi
    exact Finset.mem_filter.mpr ⟨h1, addAux_mono d m endIdx cur ns st rest i h2⟩
  have hEsub : ∀ e ∈ expFin m (addAux d m endIdx cur st rest ns).1
      (addAux d m endIdx cur st rest ns).2 road,
      e ∈ expFin m st ol road ∨ e = cur := by
    intro e he
    obtain ⟨h1, h2, h3⟩ := Finset.mem_filter.mp he
    have hold : (stGet st e).visited = true := by
      cases hv : (stGet st e).visited with
      | true => rfl
      | false => exact absurd (addAux_flip d m endIdx cur ns st rest e hv h2) h3
    by_cases hecur : e = cur
    · exact Or.inr hecur
    · left
      refine Finset.mem_filter.mpr ⟨h1, hold, ?_⟩
      intro heol
      have h4 : e ∈ rest ++ [cur] := hperm.mem_iff.mpr heol
      rcases List.mem_append.mp h4 with h5 | h5
      · exact h3 (addAux_grows d m endIdx cur ns st rest e h5)
      · exact hecur (List.mem_singleton.mp h5)
  have hEV' : expFin m (addAux d m endIdx cur st rest ns).1
      (addAux d m endIdx cur st rest ns).2 road ⊆
      visFin m (addAux d m endIdx cur st rest ns).1 road := by
    intro e he
    obtain ⟨h1, h2, _⟩ := Finset.mem_filter.mp he
    exact Finset.mem_filter.mpr ⟨h1, h2⟩
  rcases hri road hr ht with hV0 | hVfull | hEV
  · by_cases hV' : visFin m (addAux d m endIdx cur st rest ns).1 road = ∅
    · exact Or.inl hV'
    · right; right
      have hE0 : expFin m (addAux d m endIdx cur st rest ns).1
          (addAux d m endIdx cur st rest ns).2 road = ∅ := by
        rw [Finset.eq_empty_iff_forall_not_mem]
        intro e he
        rcases hEsub e he with h4 | h4
        · obtain ⟨h5, h6, _⟩ := Finset.mem_filter.mp h4
          have : e ∈ visFin m st road := Finset.mem_filter.mpr ⟨h5, h6⟩
          rw [hV0] at this
          exact absurd this (Finset.not_mem_empty e)
        · obtain ⟨h5, _, _⟩ := Finset.mem_filter.mp he
          rw [h4] at h5
          have : cur ∈ visFin m st road := Finset.mem_filter.mpr ⟨h5, hcur_vis⟩
          rw [hV0] at this
          exact absurd this (Finset.not_mem_empty cur)
      rw [hE0, Finset.empty_ssubset]
      exact Finset.nonempty_iff_ne_empty.mpr hV'
  · right; left
    refine Finset.Subset.antisymm (Finset.filter_subset _ _) ?_
    rw [← hVfull]
    exact hmono
  · by_cases hall : ∀ u ∈ (wayGet m road.way).nodes, (stGet st u).visited = true
    · right; left
      refine Finset.Subset.antisymm (Finset.filter_subset _ _) ?_
      intro i hi
      exact Finset.mem_filter.mpr ⟨hi, addAux_mono d m endIdx cur ns st rest i
        (hall i (List.mem_toFinset.mp hi))⟩
    · right; right
      push_neg at hall
      obtain ⟨u, hu_mem, hu_unvis⟩ := hall
      have hu_unvis' : (stGet st u).visited = false := by
        cases h : (stGet st u).visited with
        | true => exact absurd h hu_unvis
        | false => rfl
      by_cases hcur_road : cur ∈ (wayGet m road.way).nodes
      · have hvalid : validCand d m st cur u := by
          constructor
          · intro h0
            have hne_idx : u ≠ cur := by
              intro he
              rw [he] at hu_unvis'
              rw [hcur_vis] at hu_unvis'
              cases hu_unvis'
            have hlt_u : u < m.snodes.length := nodes_range hwf hr hu_mem
            have hlt_c : cur < m.snodes.length := by
              rw [← hinv.len]; exact hcur_lt
            exact hinj cur u hlt_c hlt_u (fun he => hne_idx he.symm)
              ((hd.eq_zero_iff_pt _ _).mp h0)
          · exact hu_unvis'
        obtain ⟨nb, hnb⟩ := findNeighbor_isSome hu_mem hvalid
        have hroad_ntr : road ∈ nodeToRoad m cur :=
          mem_nodeToRoad.mpr ⟨hr, ht, hcur_road⟩
        have hnb_ns : nb ∈ ns := by
          rw [hnsdef]
          exact mem_findNeighbors.mpr ⟨road, hroad_ntr, hnb⟩
        obtain ⟨⟨hnb_d, hnb_unvis⟩, hnb_mem, _⟩ := findNeighbor_some_spec hnb
        have hnb_vis' :
            (stGet (addAux d m endIdx cur st rest ns).1 nb).visited = true :=
          addAux_listed d m endIdx cur ns st rest nb hnb_ns (hns_range nb hnb_ns)
        have hnb_V' : nb ∈ visFin m (addAux d m endIdx cur st rest ns).1 road :=
          Finset.mem_filter.mpr ⟨List.mem_toFinset.mpr hnb_mem, hnb_vis'⟩
        have hnb_notV : nb ∉ visFin m st road := by
          intro hmm
          obtain ⟨_, h5⟩ := Finset.mem_filter.mp hmm
          rw [hnb_unvis] at h5
          cases h5
        have h1 : (visFin m st road).card + 1 ≤
            (visFin m (addAux d m endIdx cur st rest ns).1 road).card := by
          have hins : insert nb (visFin m st road) ⊆
              visFin m (addAux d m endIdx cur st rest ns).1 road :=
            Finset.insert_subset_iff.mpr ⟨hnb_V', hmono⟩
          calc (visFin m st road).card + 1
              = (insert nb (visFin m st road)).card :=
                (Finset.card_insert_of_not_mem hnb_notV).symm
            _ ≤ _ := Finset.card_le_card hins
        have h2 : (expFin m (addAux d m endIdx cur st rest ns).1
            (addAux d m endIdx cur st rest ns).2 road).card ≤
            (expFin m st ol road).card + 1 := by
          have hsub : expFin m (addAux d m endIdx cur st rest ns).1
              (addAux d m endIdx cur st rest ns).2 road ⊆
              insert cur (expFin m st ol road) := by
            intro e he
            rcases hEsub e he with h4 | h4
            · exact Finset.mem_insert_of_mem h4
            · rw [h4]; exact Finset.mem_insert_self cur _
          exact le_trans (Finset.card_le_card hsub) (Finset.card_insert_le _ _)
        have h3 : (expFin m st ol road).card < (visFin m st road).card :=
          Finset.card_lt_card hEV
        exact ssubset_of_subset_card_lt hEV' (by omega)
      · have h2 : expFin m (addAux d m endIdx cur st rest ns).1
            (addAux d m endIdx cur st rest ns).2 road ⊆ expFin m st ol road := by
          intro e he
          rcases hEsub e he with h4 | h4
          · exact h4
          · obtain ⟨h5, _, _⟩ := Finset.mem_filter.mp he
            rw [h4] at h5
            exact absurd (List.mem_toFinset.mp h5) hcur_road
        have h3 := Finset.card_lt_card hEV
        have h4 := Finset.card_le_card h2
        have h5 := Finset.card_le_card hmono
        exact ssubset_of_subset_card_lt hEV' (by omega)

/-! The search loop: termination, found-path properties, completeness. -/

theorem aStarLoop_succ_empty {d : Point → Point → ℚ} {m : RouteModel}
    {endIdx fuel : Nat} {st : List NodeState} {ol : List Nat} (hol : ol = []) :
    aStarLoop d m endIdx (fuel + 1) st ol = .exhausted := by
  rw [aStarLoop, if_pos hol]

theorem aStarLoop_succ_found {d : Point → Point → ℚ} {m : RouteModel}
    {endIdx fuel : Nat} {st : List NodeState} {ol : List Nat} (hol : ol ≠ [])
    (hcend : (nextNode st ol).1 = endIdx) :
    aStarLoop d m endIdx (fuel + 1) st ol =
      match constructFinalPath d m st (st.length + 1) (nextNode st ol).1 with
      | some pd => .found pd.1 pd.2
      | none => .outOfFuel := by
  rw [aStarLoop, if_neg hol]
  dsimp only
  rw [if_pos hcend]

theorem aStarLoop_succ_step {d : Point → Point → ℚ} {m : RouteModel}
    {endIdx fuel : Nat} {st : List NodeState} {ol : List Nat} (hol : ol ≠ [])
    (hcend : (nextNode st ol).1 ≠ endIdx) :
    aStarLoop d m endIdx (fuel + 1) st ol =
      aStarLoop d m endIdx fuel (stepIter d m endIdx (st, ol)).1
        (stepIter d m endIdx (st, ol)).2 := by
  rw [aStarLoop, if_neg hol]
  dsimp only
  rw [if_neg hcend]
  rfl

theorem stepIter_measure (d : Point → Point → ℚ) (m : RouteModel)
    (start endIdx : Nat) (hwf : WFModel m) (st : List NodeState) (ol : List Nat)
    (hinv : SearchInv m start endIdx st ol) (hne : ol ≠ []) :
    searchMeasure (stepIter d m endIdx (st, ol)).1
      (stepIter d m endIdx (st, ol)).2 < searchMeasure st ol := by
  rw [stepIter_eq]
  have hns_range : ∀ x ∈ findNeighbors d m st (nextNode st ol).1,
      x < st.length := fun x hx => by
    rw [hinv.len]; exact findNeighbors_range hwf hx
  have h1 := addAux_measure d m endIdx (nextNode st ol).1
    (findNeighbors d m st (nextNode st ol).1) st (nextNode st ol).2 hns_range
  have h2 := nextNode_length st ol hne
  unfold searchMeasure at h1 ⊢
  omega

/-- When the popped node is the end node, the loop returns a found outcome
whose path is the reversed parent chain of the end node. -/
theorem aStarLoop_found_case (d : Point → Point → ℚ) (m : RouteModel)
    (start endIdx fuel : Nat) (st : List NodeState) (ol : List Nat)
    (hinv : SearchInv m start endIdx st ol) (hol : ol ≠ [])
    (hcend : (nextNode st ol).1 = endIdx) :
    ∃ c, Chain st endIdx c ∧ c.getLast? = some start ∧ c ≠ [] ∧
      c.head? = some endIdx ∧
      aStarLoop d m endIdx (fuel + 1) st ol =
        .found c.reverse ((0 + chainDist d m c) * m.metricScale) := by
  have hcur_vis : (stGet st endIdx).visited = true := by
    rw [← hcend]
    exact hinv.olVisited _ (nextNode_spec st ol hol).1
  obtain ⟨c, hc1, hc2, hc3, hc4⟩ := hinv.chains endIdx hcur_vis
  have hlen : c.length ≤ st.length + 1 :=
    le_trans (chain_length_le hc1 hc3 fun x hx => (hc4 x hx).1) (Nat.le_succ _)
  have hgo := constructGo_chain d m st hc1 (st.length + 1) [] 0 hlen
  refine ⟨c, hc1, hc2, hc1.ne_nil, hc1.head, ?_⟩
  rw [aStarLoop_succ_found hol hcend, hcend]
  rw [constructFinalPath, hgo]
  simp

theorem aStarLoop_master (d : Point → Point → ℚ) (m : RouteModel)
    (start endIdx : Nat) (hwf : WFModel m) :
    ∀ (fuel : Nat) (st : List NodeState) (ol : List Nat),
      SearchInv m start endIdx st ol →
      searchMeasure st ol < fuel →
      aStarLoop d m endIdx fuel st ol ≠ .outOfFuel ∧
      (∀ p dist, aStarLoop d m endIdx fuel st ol = .found p dist →
        p ≠ [] ∧ p.head? = some start ∧ p.getLast? = some endIdx) := by
  intro fuel
  induction fuel with
  | zero =>
      intro st ol _ hm
      exact absurd hm (Nat.not_lt_zero _)
  | succ fuel ih =>
      intro st ol hinv hm
      by_cases hol : ol = []
      · rw [aStarLoop_succ_empty hol]
        refine ⟨?_, ?_⟩
        · intro h
          cases h
        · intro p dist h
          cases h
      · by_cases hcend : (nextNode st ol).1 = endIdx
        · obtain ⟨c, hc1, hc2, hc3, hc4, hc5⟩ :=
            aStarLoop_found_case d m start endIdx fuel st ol hinv hol hcend
          rw [hc5]
          refine ⟨?_, ?_⟩
          · intro h
            cases h
          · intro p dist h
            cases h
            refine ⟨fun hnil => hc3 (List.reverse_eq_nil_iff.mp hnil), ?_, ?_⟩
            · rw [List.head?_reverse]
              exact hc2
            · rw [List.getLast?_reverse]
              exact hc4
        · rw [aStarLoop_succ_step hol hcend]
          have hinv' := inv_step d m start endIdx hwf st ol hinv hol hcend
          have hm' := stepIter_measure d m start endIdx hwf st ol hinv hol
          exact ih _ _ hinv' (by omega)

/-- Two nodes are adjacent when some non-footway road's way contains both. -/
def adjRoad (m : RouteModel) (u v : Nat) : Prop :=
  ∃ road ∈ m.roads, road.type ≠ RoadType.Footway ∧
    u ∈ (wayGet m road.way).nodes ∧ v ∈ (wayGet m road.way).nodes

/-- Connectivity along non-footway roads. -/
def ReachRoad (m : RouteModel) (u v : Nat) : Prop :=
  Relation.ReflTransGen (adjRoad m) u v

theorem expFin_empty_ol (m : RouteModel) (st : List NodeState) (road : Road) :
    expFin m st [] road = visFin m st road := by
  ext i
  simp only [expFin, visFin, Finset.mem_filter, List.not_mem_nil,
    not_false_iff, and_true]

theorem closed_at_empty {m : RouteModel} {st : List NodeState}
    (hri : RoadInv m st []) {u v : Nat} (hadj : adjRoad m u v)
    (hu : (stGet st u).visited = true) : (stGet st v).visited = true := by
  obtain ⟨road, hr, ht, hum, hvm⟩ := hadj
  rcases hri road hr ht with h0 | hfull | hss
  · have : u ∈ visFin m st road :=
      Finset.mem_filter.mpr ⟨List.mem_toFinset.mpr hum, hu⟩
    rw [h0] at this
    exact absurd this (Finset.not_mem_empty u)
  · have : v ∈ visFin m st road := by
      rw [hfull]
      exact List.mem_toFinset.mpr hvm
    exact (Finset.mem_filter.mp this).2
  · rw [expFin_empty_ol] at hss
    exact absurd hss fun h => (Finset.ssubset_iff_subset_ne.mp h).2 rfl

theorem reach_visited {m : RouteModel} {st : List NodeState}
    (hri : RoadInv m st []) {u v : Nat} (hreach : ReachRoad m u v)
    (hu : (stGet st u).visited = true) : (stGet st v).visited = true := by
  induction hreach with
  | refl => exact hu
  | tail _ hadj ih => exact closed_at_empty hri hadj ih

theorem aStarLoop_complete (d : Point → Point → ℚ) (hd : DistOk d)
    (m : RouteModel) (hwf : WFModel m)
    (hinj : ∀ i j : Nat, i < m.snodes.length → j < m.snodes.length → i ≠ j →
      coord m i ≠ coord m j)
    (start endIdx : Nat) (hreach : ReachRoad m start endIdx) :
    ∀ (fuel : Nat) (st : List NodeState) (ol : List Nat),
      SearchInv m start endIdx st ol → RoadInv m st ol →
      aStarLoop d m endIdx fuel st ol ≠ .exhausted := by
  intro fuel
  induction fuel with
  | zero =>
      intro st ol _ _
      intro h
      cases h
  | succ fuel ih =>
      intro st ol hinv hri
      by_cases hol : ol = []
      · exfalso
        subst hol
        have hend : (stGet st endIdx).visited = true :=
          reach_visited hri hreach hinv.startVisited
        exact absurd (hinv.endInOl hend) (List.not_mem_nil endIdx)
      · by_cases hcend : (nextNode st ol).1 = endIdx
        · obtain ⟨c, _, _, _, _, hc5⟩ :=
            aStarLoop_found_case d m start endIdx fuel st ol hinv hol hcend
          rw [hc5]
          intro h
          cases h
        · rw [aStarLoop_succ_step hol hcend]
          exact ih _ _ (inv_step d m start endIdx hwf st ol hinv hol hcend)
            (roadInv_step d hd m hwf hinj start endIdx st ol hinv hri hol)

/-! Specification of FindClosestNode. -/

/-- Nodes contributed by a list of roads, in scan order. -/
def roadPointsList (m : RouteModel) (rs : List Road) : List Nat :=
  rs.foldl
    (fun acc road =>
      if road.type = RoadType.Footway then acc
      else acc ++ (wayGet m road.way).nodes)
    []

theorem roadPointsListAux (m : RouteModel) :
    ∀ (rs : List Road) (init : List Nat),
      rs.foldl
          (fun acc road =>
            if road.type = RoadType.Footway then acc
            else acc ++ (wayGet m road.way).nodes)
          init = init ++ roadPointsList m rs := by
  intro rs
  induction rs with
  | nil => intro init; simp [roadPointsList]
  | cons road rs ih =>
      intro init
      rw [List.foldl_cons]
      by_cases ht : road.type = RoadType.Footway
      · rw [if_pos ht, ih]
        have : roadPointsList m (road :: rs) = roadPointsList m rs := by
          unfold roadPointsList
          rw [List.foldl_cons, if_pos ht]
        rw [this]
      · rw [if_neg ht, ih]
        have : roadPointsList m (road :: rs) =
            (wayGet m road.way).nodes ++ roadPointsList m rs := by
          unfold roadPointsList
          rw [List.foldl_cons, if_neg ht]
          exact ih _
        rw [this, List.append_assoc]

theorem roadPoints_eq (m : RouteModel) :
    roadPoints m = roadPointsList m m.roads := rfl

theorem mem_roadPointsList (m : RouteModel) :
    ∀ (rs : List Road) (k : Nat),
      k ∈ roadPointsList m rs ↔
        ∃ road ∈ rs, road.type ≠ RoadType.Footway ∧
          k ∈ (wayGet m road.way).nodes := by
  intro rs
  induction rs with
  | nil => intro k; simp [roadPointsList]
  | cons road rs ih =>
      intro k
      have hsplit : roadPointsList m (road :: rs) =
          (if road.type = RoadType.Footway then ([] : List Nat)
            else (wayGet m road.way).nodes) ++ roadPointsList m rs := by
        unfold roadPointsList
        rw [List.foldl_cons]
        by_cases ht : road.type = RoadType.Footway
        · rw [if_pos ht, if_pos ht]
          simp
        · rw [if_neg ht, if_neg ht]
          exact roadPointsListAux m rs _
      rw [hsplit]
      by_cases ht : road.type = RoadType.Footway
      · rw [if_pos ht]
        simp only [List.nil_append, ih]
        constructor
        · rintro ⟨r, h1, h2, h3⟩
          exact ⟨r, List.mem_cons_of_mem _ h1, h2, h3⟩
        · rintro ⟨r, h1, h2, h3⟩
          rcases List.mem_cons.mp h1 with h4 | h4
          · subst h4; exact absurd ht h2
          · exact ⟨r, h4, h2, h3⟩
      · rw [if_neg ht]
        rw [List.mem_append, ih]
        constructor
        · rintro (h1 | ⟨r, h1, h2, h3⟩)
          · exact ⟨road, List.mem_cons_self _ _, ht, h1⟩
          · exact ⟨r, List.mem_cons_of_mem _ h1, h2, h3⟩
        · rintro ⟨r, h1, h2, h3⟩
          rcases List.mem_cons.mp h1 with h4 | h4
          · subst h4; exact Or.inl h3
          · exact Or.inr ⟨r, h4, h2, h3⟩

theorem mem_roadPoints {m : RouteModel} {k : Nat} :
    k ∈ roadPoints m ↔
      ∃ road ∈ m.roads, road.type ≠ RoadType.Footway ∧
        k ∈ (wayGet m road.way).nodes := by
  rw [roadPoints_eq]
  exact mem_roadPointsList m m.roads k

theorem fcnFoldEq (d : Point → Point → ℚ) (m : RouteModel) (q : Point) :
    ∀ (rs : List Road) (acc : Option Nat × ℚ),
      rs.foldl
          (fun acc2 road =>
            if road.type = RoadType.Footway then acc2
            else
              (wayGet m road.way).nodes.foldl
                (fun acc3 idx =>
                  if d q (coord m idx) < acc3.2 then (some idx, d q (coord m idx))
                  else acc3)
                acc2)
          acc =
        (roadPointsList m rs).foldl
          (fun acc3 idx =>
            if d q (coord m idx) < acc3.2 then (some idx, d q (coord m idx))
            else acc3)
          acc := by
  intro rs
  induction rs with
  | nil => intro acc; simp [roadPointsList]
  | cons road rs ih =>
      intro acc
      rw [List.foldl_cons]
      by_cases ht : road.type = RoadType.Footway
      · rw [if_pos ht, ih]
        have : roadPointsList m (road :: rs) = roadPointsList m rs := by
          unfold roadPointsList
          rw [List.foldl_cons, if_pos ht]
        rw [this]
      · rw [if_neg ht, ih]
        have h1 : roadPointsList m (road :: rs) =
            (wayGet m road.way).nodes ++ roadPointsList m rs := by
          unfold roadPointsList
          rw [List.foldl_cons, if_neg ht]
          exact roadPointsListAux m rs _
        rw [h1, List.foldl_append]

theorem fcnAux (d : Point → Point → ℚ) (m : RouteModel) (q : Point)
    (hmax : ∀ p : Point, d q p < floatMax) (l : List Nat) :
    ∀ acc : Option Nat × ℚ,
      ((acc.1 = none ∧ acc.2 = floatMax) ∨
        ∃ i0, acc.1 = some i0 ∧ acc.2 = d q (coord m i0)) →
      (((l.foldl
          (fun acc3 idx =>
            if d q (coord m idx) < acc3.2 then (some idx, d q (coord m idx))
            else acc3) acc).2 ≤ acc.2) ∧
       (∀ j ∈ l,
          (l.foldl
            (fun acc3 idx =>
              if d q (coord m idx) < acc3.2 then (some idx, d q (coord m idx))
              else acc3) acc).2 ≤ d q (coord m j)) ∧
       (l ≠ [] ∨ acc.1 ≠ none →
          ∃ i,
            (l.foldl
              (fun acc3 idx =>
                if d q (coord m idx) < acc3.2 then (some idx, d q (coord m idx))
                else acc3) acc).1 = some i ∧
            (l.foldl
              (fun acc3 idx =>
                if d q (coord m idx) < acc3.2 then (some idx, d q (coord m idx))
                else acc3) acc).2 = d q (coord m i) ∧
            (i ∈ l ∨ acc.1 = some i))) := by
  induction l with
  | nil =>
      intro acc hacc
      refine ⟨le_refl _, by simp, ?_⟩
      rintro (h | h)
      · exact absurd rfl h
      · rcases hacc with ⟨h1, _⟩ | ⟨i0, h1, h2⟩
        · exact absurd h1 h
        · exact ⟨i0, h1, h2, Or.inr h1⟩
  | cons j l ih =>
      intro acc hacc
      rw [List.foldl_cons]
      by_cases hlt : d q (coord m j) < acc.2
      · rw [if_pos hlt]
        have hacc' : ((some j, d q (coord m j)) : Option Nat × ℚ).1 = none ∧
            ((some j, d q (coord m j)) : Option Nat × ℚ).2 = floatMax ∨
            ∃ i0, ((some j, d q (coord m j)) : Option Nat × ℚ).1 = some i0 ∧
              ((some j, d q (coord m j)) : Option Nat × ℚ).2 = d q (coord m i0) :=
          Or.inr ⟨j, rfl, rfl⟩
        obtain ⟨ih1, ih2, ih3⟩ := ih (some j, d q (coord m j)) hacc'
        refine ⟨le_trans ih1 (le_of_lt hlt), ?_, ?_⟩
        · intro u hu
          rcases List.mem_cons.mp hu with h1 | h1
          · rw [h1]; exact ih1
          · exact ih2 u h1
        · intro _
          obtain ⟨i, h1, h2, h3⟩ := ih3 (Or.inr (by simp))
          refine ⟨i, h1, h2, ?_⟩
          rcases h3 with h4 | h4
          · exact Or.inl (List.mem_cons_of_mem _ h4)
          · have : i = j := by
              have := h4
              simp at this
              exact this.symm
            rw [this]
            exact Or.inl (List.mem_cons_self _ _)
      · rw [if_neg hlt]
        obtain ⟨ih1, ih2, ih3⟩ := ih acc hacc
        refine ⟨ih1, ?_, ?_⟩
        · intro u hu
          rcases List.mem_cons.mp hu with h1 | h1
          · rw [h1]
            exact le_trans ih1 (le_of_not_lt hlt)
          · exact ih2 u h1
        · intro _
          have haccne : acc.1 ≠ none := by
            intro h0
            rcases hacc with ⟨_, h2⟩ | ⟨i0, h1, _⟩
            · rw [h2] at hlt
              exact hlt (hmax (coord m j))
            · rw [h0] at h1; cases h1
          obtain ⟨i, h1, h2, h3⟩ := ih3 (Or.inr haccne)
          refine ⟨i, h1, h2, ?_⟩
          rcases h3 with h4 | h4
          · exact Or.inl (List.mem_cons_of_mem _ h4)
          · exact Or.inr h4

/-- Full specification of FindClosestNode: on a model with at least one
non-footway road point, it returns an index among those points whose
(squared-Euclidean) distance to the query is minimal; a query coinciding
with such a point yields a point at distance zero with those coordinates. -/
theorem findClosestNode_spec {d : Point → Point → ℚ} (hd : DistOk d)
    (m : RouteModel) (x y : ℚ) (hne : roadPoints m ≠ []) :
    ∃ i, findClosestNode d m x y = some i ∧ i ∈ roadPoints m ∧
      (∀ j ∈ roadPoints m,
        sqDist ⟨x, y⟩ (coord m i) ≤ sqDist ⟨x, y⟩ (coord m j)) ∧
      ((∃ j ∈ roadPoints m, coord m j = ⟨x, y⟩) →
        coord m i = ⟨x, y⟩ ∧ d ⟨x, y⟩ (coord m i) = 0) := by
  have hfold :
      findClosestNode d m x y =
        ((roadPointsList m m.roads).foldl
          (fun acc3 idx =>
            if d ⟨x, y⟩ (coord m idx) < acc3.2 then
              (some idx, d ⟨x, y⟩ (coord m idx))
            else acc3)
          ((none : Option Nat), floatMax)).1 := by
    unfold findClosestNode
    rw [fcnFoldEq]
  obtain ⟨h1, h2, h3⟩ := fcnAux d m ⟨x, y⟩ (fun p => hd.lt_max _ p)
    (roadPointsList m m.roads) ((none : Option Nat), floatMax)
    (Or.inl ⟨rfl, rfl⟩)
  obtain ⟨i, hi1, hi2, hi3⟩ := h3 (Or.inl (by rw [← roadPoints_eq]; exact hne))
  have hi_mem : i ∈ roadPoints m := by
    rcases hi3 with h | h
    · rw [roadPoints_eq]; exact h
    · cases h
  have hmin : ∀ j ∈ roadPoints m,
      d ⟨x, y⟩ (coord m i) ≤ d ⟨x, y⟩ (coord m j) := by
    intro j hj
    rw [← hi2]
    exact h2 j (by rw [← roadPoints_eq]; exact hj)
  refine ⟨i, by rw [hfold, hi1], hi_mem, ?_, ?_⟩
  · intro j hj
    exact (hd.le_iff _ _ _ _).mp (hmin j hj)
  · rintro ⟨j, hj1, hj2⟩
    have h4 : d ⟨x, y⟩ (coord m j) = 0 := by
      rw [hj2, hd.zero_self]
    have h5 : d ⟨x, y⟩ (coord m i) ≤ 0 := by
      rw [← h4]
      exact hmin j hj1
    have h6 : d ⟨x, y⟩ (coord m i) = 0 :=
      le_antisymm h5 (hd.nonneg _ _)
    have h7 : (⟨x, y⟩ : Point) = coord m i := (hd.eq_zero_iff_pt _ _).mp h6
    exact ⟨h7.symm, h6⟩

/-! Concrete models used to evaluate the spec scenarios.  The kernel can
evaluate rational arithmetic, but Batteries hides the bodies of the rational
operations from the elaborator; the attributes below only restore their
visibility for the concrete evaluations. -/

section ConcreteEvaluation

set_option allowUnsafeReducibility true

attribute [local semireducible] Rat.add Rat.mul Rat.sub Rat.inv Rat.ofScientific

set_option maxRecDepth 1000000

/-- Three collinear-free points P0(0,0), P1(1,0), P2(1,1), ways [P0,P1] and
[P1,P2], both residential: the connected concrete scenario. -/
def mRes : RouteModel :=
  { snodes := [⟨0, 0⟩, ⟨1, 0⟩, ⟨1, 1⟩]
    ways := [⟨[0, 1]⟩, ⟨[1, 2]⟩]
    roads := [⟨0, .Residential⟩, ⟨1, .Residential⟩]
    metricScale := 1 }

/-- Same points, but way [P1,P2] is a footway: the disconnected scenario. -/
def mFoot : RouteModel :=
  { snodes := [⟨0, 0⟩, ⟨1, 0⟩, ⟨1, 1⟩]
    ways := [⟨[0, 1]⟩, ⟨[1, 2]⟩]
    roads := [⟨0, .Residential⟩, ⟨1, .Footway⟩]
    metricScale := 1 }

/-- Two distinct nodes at the same coordinates joined by a residential way. -/
def mDup : RouteModel :=
  { snodes := [⟨0, 0⟩, ⟨0, 0⟩]
    ways := [⟨[0, 1]⟩]
    roads := [⟨0, .Residential⟩]
    metricScale := 1 }

/-- Two residential roads over two ways with identical node lists. -/
def mC2 : RouteModel :=
  { snodes := [⟨0, 0⟩, ⟨1, 0⟩]
    ways := [⟨[0, 1]⟩, ⟨[0, 1]⟩]
    roads := [⟨0, .Residential⟩, ⟨1, .Residential⟩]
    metricScale := 1 }

/-- A model whose only road references way index 5 while no ways exist. -/
def mBad : RouteModel :=
  { snodes := []
    ways := []
    roads := [⟨5, .Residential⟩]
    metricScale := 1 }

/-- All-initial search state over the nodes of mC2. -/
def stC2 : List NodeState := [initState, initState]

/-- C1: for every non-empty open list, NextNode removes exactly one element
(the remaining list plus the returned node is a permutation of the open
list, one element shorter) and the returned node is an open-list member
whose f = g_value + h_value is minimal among all members. -/
theorem C1_nextNode_min (st : List NodeState) (ol : List Nat) (h : ol ≠ []) :
    (nextNode st ol).1 ∈ ol ∧
    (∀ x ∈ ol, fval (stGet st (nextNode st ol).1) ≤ fval (stGet st x)) ∧
    ((nextNode st ol).2 ++ [(nextNode st ol).1]).Perm ol ∧
    (nextNode st ol).2.length + 1 = ol.length := by
  obtain ⟨h1, h2, h3⟩ := nextNode_spec st ol h
  exact ⟨h1, h2, h3, nextNode_length st ol h⟩

/-- Witness for C1 at a concrete three-element open list. -/
theorem C1_nextNode_min_witness :
    ([0, 1, 2] : List Nat) ≠ [] ∧
    ((nextNode [⟨none, 5, 0, true⟩, ⟨none, 1, 0, true⟩, ⟨none, 3, 0, true⟩]
        [0, 1, 2]).1 ∈ ([0, 1, 2] : List Nat) ∧
      (∀ x ∈ ([0, 1, 2] : List Nat),
        fval (stGet [⟨none, 5, 0, true⟩, ⟨none, 1, 0, true⟩, ⟨none, 3, 0, true⟩]
          (nextNode [⟨none, 5, 0, true⟩, ⟨none, 1, 0, true⟩, ⟨none, 3, 0, true⟩]
            [0, 1, 2]).1) ≤
        fval (stGet [⟨none, 5, 0, true⟩, ⟨none, 1, 0, true⟩, ⟨none, 3, 0, true⟩] x)) ∧
      ((nextNode [⟨none, 5, 0, true⟩, ⟨none, 1, 0, true⟩, ⟨none, 3, 0, true⟩]
          [0, 1, 2]).2 ++
        [(nextNode [⟨none, 5, 0, true⟩, ⟨none, 1, 0, true⟩, ⟨none, 3, 0, true⟩]
          [0, 1, 2]).1]).Perm [0, 1, 2] ∧
      (nextNode [⟨none, 5, 0, true⟩, ⟨none, 1, 0, true⟩, ⟨none, 3, 0, true⟩]
        [0, 1, 2]).2.length + 1 = ([0, 1, 2] : List Nat).length) ∧
    (nextNode [⟨none, 5, 0, true⟩, ⟨none, 1, 0, true⟩, ⟨none, 3, 0, true⟩]
      [0, 1, 2]).1 = 1 :=
  ⟨by decide, C1_nextNode_min _ _ (by decide), by decide⟩

/-- C2 counterexample: in mC2 two distinct residential roads over ways with
the same node list are incident on node 0; both select node 1 as closest
unvisited neighbour, so FindNeighbors returns the duplicated list [1, 1]. -/
theorem C2_counterexample :
    DistOk dW ∧
    findNeighbors dW mC2 stC2 0 = [1, 1] ∧
    ¬(findNeighbors dW mC2 stC2 0).Nodup :=
  ⟨distOk_dW, by decide, by decide⟩

/-- C2 amended: FindNeighbors is exactly the concatenation, over the roads
incident on the node, of each road's FindNeighbor result (so the same node
may appear once per road); per road, FindNeighbor returns an unvisited
point of that road's way at nonzero distance that minimises the Euclidean
distance among such points, and returns null exactly when no such point
exists. -/
theorem C2_findNeighbors_per_road {d : Point → Point → ℚ} (hd : DistOk d)
    (m : RouteModel) (st : List NodeState) (n : Nat) :
    findNeighbors d m st n =
      (nodeToRoad m n).filterMap
        (fun road => findNeighbor d m st n (wayGet m road.way).nodes) ∧
    (∀ road ∈ nodeToRoad m n, ∀ nb,
      findNeighbor d m st n (wayGet m road.way).nodes = some nb →
        nb ∈ (wayGet m road.way).nodes ∧
        d (coord m n) (coord m nb) ≠ 0 ∧
        (stGet st nb).visited = false ∧
        ∀ u ∈ (wayGet m road.way).nodes,
          d (coord m n) (coord m u) ≠ 0 → (stGet st u).visited = false →
          sqDist (coord m n) (coord m nb) ≤ sqDist (coord m n) (coord m u)) ∧
    (∀ road ∈ nodeToRoad m n,
      findNeighbor d m st n (wayGet m road.way).nodes = none →
      ∀ u ∈ (wayGet m road.way).nodes, ¬validCand d m st n u) := by
  refine ⟨findNeighbors_eq d m st n, ?_, ?_⟩
  · intro road _ nb hnb
    obtain ⟨⟨hv1, hv2⟩, hmem, hmin⟩ := findNeighbor_some_spec hnb
    refine ⟨hmem, hv1, hv2, ?_⟩
    intro u hu hu1 hu2
    exact (hd.le_iff _ _ _ _).mp (hmin u hu ⟨hu1, hu2⟩)
  · intro road _ hnone
    exact findNeighbor_none_spec hnone

/-- Witness for C2's amended statement on mC2, where the duplicate arises. -/
theorem C2_findNeighbors_per_road_witness :
    DistOk dW ∧
    (findNeighbors dW mC2 stC2 0 =
      (nodeToRoad mC2 0).filterMap
        (fun road => findNeighbor dW mC2 stC2 0 (wayGet mC2 road.way).nodes) ∧
    (∀ road ∈ nodeToRoad mC2 0, ∀ nb,
      findNeighbor dW mC2 stC2 0 (wayGet mC2 road.way).nodes = some nb →
        nb ∈ (wayGet mC2 road.way).nodes ∧
        dW (coord mC2 0) (coord mC2 nb) ≠ 0 ∧
        (stGet stC2 nb).visited = false ∧
        ∀ u ∈ (wayGet mC2 road.way).nodes,
          dW (coord mC2 0) (coord mC2 u) ≠ 0 → (stGet stC2 u).visited = false →
          sqDist (coord mC2 0) (coord mC2 nb) ≤ sqDist (coord mC2 0) (coord mC2 u)) ∧
    (∀ road ∈ nodeToRoad mC2 0,
      findNeighbor dW mC2 stC2 0 (wayGet mC2 road.way).nodes = none →
      ∀ u ∈ (wayGet mC2 road.way).nodes, ¬validCand dW mC2 stC2 0 u)) :=
  ⟨distOk_dW, C2_findNeighbors_per_road distOk_dW mC2 stC2 0⟩

/-- C9 counterexample: adjacency construction on a road whose way index (5)
does not reference a valid way hits an unchecked out-of-bounds vector
access (modelled as failure), instead of skipping the road. -/
theorem C9_counterexample :
    mBad.roads = [⟨5, RoadType.Residential⟩] ∧ mBad.ways = [] ∧
    nodeToRoadChecked mBad = none :=
  ⟨rfl, rfl, rfl⟩


/-- C9 amended, fold analysis: the hashmap build succeeds exactly on the
roads it actually dereferences (every non-footway road needs a valid way
index), and empty ways contribute no entries. -/
theorem nodeToRoadCheckedAux (m : RouteModel) :
    ∀ (rs : List Road) (acc : Option (Nat → List Road)),
      ((∀ r ∈ rs, r.type ≠ RoadType.Footway → r.way < m.ways.length) →
        acc.isSome = true →
        (rs.foldl
          (fun acc road =>
            acc.bind fun f =>
              if road.type = RoadType.Footway then some f
              else
                match m.ways.get? road.way with
                | none => none
                | some w =>
                    some (w.nodes.foldl
                      (fun g idx => fun j => if j = idx then g j ++ [road] else g j)
                      f))
          acc).isSome = true) ∧
      ((∀ w ∈ m.ways, w.nodes = []) →
        (∀ f, acc = some f → ∀ i, f i = []) →
        ∀ f,
          rs.foldl
            (fun acc road =>
              acc.bind fun f =>
                if road.type = RoadType.Footway then some f
                else
                  match m.ways.get? road.way with
                  | none => none
                  | some w =>
                      some (w.nodes.foldl
                        (fun g idx => fun j => if j = idx then g j ++ [road] else g j)
                        f))
            acc = some f → ∀ i, f i = []) := by
  intro rs
  induction rs with
  | nil =>
      intro acc
      refine ⟨fun _ h => h, fun _ hacc f hf => hacc f hf⟩
  | cons road rs ih =>
      intro acc
      constructor
      · intro hvalid hsome
        rw [List.foldl_cons]
        cases acc with
        | none => cases hsome
        | some f =>
            rw [Option.some_bind]
            by_cases ht : road.type = RoadType.Footway
            · rw [if_pos ht]
              exact (ih (some f)).1
                (fun r hr => hvalid r (List.mem_cons_of_mem _ hr)) rfl
            · rw [if_neg ht]
              have hlt : road.way < m.ways.length :=
                hvalid road (List.mem_cons_self _ _) ht
              have hget : m.ways.get? road.way = some (m.ways.get ⟨road.way, hlt⟩) :=
                List.get?_eq_get hlt
              rw [hget]
              exact (ih _).1 (fun r hr => hvalid r (List.mem_cons_of_mem _ hr)) rfl
      · intro hempty hacc f hf
        rw [List.foldl_cons] at hf
        cases acc with
        | none =>
            rw [Option.none_bind] at hf
            have : ∀ (rs' : List Road),
                rs'.foldl
                  (fun acc road =>
                    acc.bind fun f =>
                      if road.type = RoadType.Footway then some f
                      else
                        match m.ways.get? road.way with
                        | none => none
                        | some w =>
                            some (w.nodes.foldl
                              (fun g idx => fun j =>
                                if j = idx then g j ++ [road] else g j)
                              f))
                  none = none := by
              intro rs'
              induction rs' with
              | nil => rfl
              | cons r rs' ih2 => rw [List.foldl_cons]; exact ih2
            rw [this rs] at hf
            cases hf
        | some f0 =>
            have hf0 : ∀ i, f0 i = [] := hacc f0 rfl
            rw [Option.some_bind] at hf
            by_cases ht : road.type = RoadType.Footway
            · rw [if_pos ht] at hf
              exact (ih (some f0)).2 hempty
                (fun g hg i => by cases hg; exact hf0 i) f hf
            · rw [if_neg ht] at hf
              cases hget : m.ways.get? road.way with
              | none =>
                  rw [hget] at hf
                  dsimp only at hf
                  have : ∀ (rs' : List Road),
                      rs'.foldl
                        (fun acc road =>
                          acc.bind fun f =>
                            if road.type = RoadType.Footway then some f
                            else
                              match m.ways.get? road.way with
                              | none => none
                              | some w =>
                                  some (w.nodes.foldl
                                    (fun g idx => fun j =>
                                      if j = idx then g j ++ [road] else g j)
                                    f))
                        none = none := by
                    intro rs'
                    induction rs' with
                    | nil => rfl
                    | cons r rs' ih2 => rw [List.foldl_cons]; exact ih2
                  rw [this rs] at hf
                  cases hf
              | some w =>
                  rw [hget] at hf
                  dsimp only at hf
                  have hw : w ∈ m.ways := List.get?_mem hget
                  have hwn : w.nodes = [] := hempty w hw
                  rw [hwn] at hf
                  exact (ih (some f0)).2 hempty
                    (fun g hg i => by cases hg; exact hf0 i) f hf

/-- C9 amended: CreateNodeToRoadHashmap performs an unchecked way lookup.
It succeeds whenever every non-footway road's way index is valid (footway
roads are skipped before the lookup), and a way with an empty node list
contributes no entries and causes no error: on an all-empty-ways model the
produced map is empty at every node index. -/
theorem C9_hashmap_build (m : RouteModel) :
    ((∀ r ∈ m.roads, r.type ≠ RoadType.Footway → r.way < m.ways.length) →
      (nodeToRoadChecked m).isSome = true) ∧
    ((∀ r ∈ m.roads, r.type ≠ RoadType.Footway → r.way < m.ways.length) →
      (∀ w ∈ m.ways, w.nodes = []) →
      ∃ f, nodeToRoadChecked m = some f ∧ ∀ i, f i = []) := by
  have h := nodeToRoadCheckedAux m m.roads (some fun _ => [])
  have hfirst : (∀ r ∈ m.roads, r.type ≠ RoadType.Footway →
      r.way < m.ways.length) → (nodeToRoadChecked m).isSome = true :=
    fun hvalid => h.1 hvalid rfl
  refine ⟨hfirst, fun hvalid hempty => ?_⟩
  have h1 := hfirst hvalid
  cases hfc : nodeToRoadChecked m with
  | none => rw [hfc] at h1; cases h1
  | some f =>
      refine ⟨f, rfl, ?_⟩
      have h2 : ∀ g, nodeToRoadChecked m = some g → ∀ i, g i = [] :=
        h.2 hempty (fun g hg i => by cases hg; rfl)
      exact h2 f hfc

/-- Model with a single residential road over an empty way. -/
def mEmptyWay : RouteModel :=
  { snodes := []
    ways := [⟨[]⟩]
    roads := [⟨0, .Residential⟩]
    metricScale := 1 }

/-- Witness for C9's amended statement: on a valid model whose only way is
empty, the build succeeds and produces an everywhere-empty map. -/
theorem C9_hashmap_build_witness :
    ((∀ r ∈ mEmptyWay.roads, r.type ≠ RoadType.Footway →
        r.way < mEmptyWay.ways.length) ∧
      (∀ w ∈ mEmptyWay.ways, w.nodes = [])) ∧
    (nodeToRoadChecked mEmptyWay).isSome = true ∧
    (∃ f, nodeToRoadChecked mEmptyWay = some f ∧ ∀ i, f i = []) :=
  ⟨⟨by decide, by decide⟩,
   (C9_hashmap_build mEmptyWay).1 (by decide),
   (C9_hashmap_build mEmptyWay).2 (by decide) (by decide)⟩

/-- C3: the run's visited discipline.  At seeding the start node is visited
before it enters the open list; after a full loop iteration every open-list
member is visited (each neighbour is marked visited in the same AddNeighbors
step that inserts it); and a node that is visited at the start of an
iteration has its parent, g_value, h_value and visited flag unchanged by
the iteration, so once visited its bookkeeping is never revised. -/
theorem C3_visited_discipline (d : Point → Point → ℚ) (m : RouteModel)
    (start endIdx : Nat) (hs : start < m.snodes.length) (hwf : WFModel m)
    (st : List NodeState) (ol : List Nat) (hlen : st.length = m.snodes.length)
    (hol : ∀ x ∈ ol, (stGet st x).visited = true) :
    (stGet (initialState m start) start).visited = true ∧
    (∀ x ∈ (stepIter d m endIdx (st, ol)).2,
      (stGet (stepIter d m endIdx (st, ol)).1 x).visited = true) ∧
    (∀ i, (stGet st i).visited = true →
      stGet (stepIter d m endIdx (st, ol)).1 i = stGet st i) := by
  have hrest_sub : ∀ x ∈ (nextNode st ol).2, x ∈ ol := by
    intro x hx
    have heq : (nextNode st ol).2 = (List.insertionSort (fGE st) ol).dropLast := rfl
    rw [heq] at hx
    exact (List.perm_insertionSort (fGE st) ol).mem_iff.mp
      (List.dropLast_subset _ hx)
  have hns_range : ∀ x ∈ findNeighbors d m st (nextNode st ol).1,
      x < st.length := fun x hx => by
    rw [hlen]; exact findNeighbors_range hwf hx
  obtain ⟨extra, hol_eq, hextra⟩ := addAux_ol_shape d m endIdx (nextNode st ol).1
    (findNeighbors d m st (nextNode st ol).1) st (nextNode st ol).2 hns_range
  refine ⟨initialState_visited_start hs, ?_, ?_⟩
  · intro x hx
    rw [stepIter_eq] at hx ⊢
    rw [hol_eq] at hx
    rcases List.mem_append.mp hx with h1 | h1
    · exact addAux_mono d m endIdx (nextNode st ol).1 _ st (nextNode st ol).2 x
        (hol x (hrest_sub x h1))
    · exact (hextra x h1).2.2.1
  · intro i hi
    rw [stepIter_eq]
    exact addAux_pres d m endIdx (nextNode st ol).1 _ st (nextNode st ol).2 i hi

/-- Witness for C3 on the residential model's initial state. -/
theorem C3_visited_discipline_witness :
    (0 < mRes.snodes.length ∧ WFModel mRes ∧
      (initialState mRes 0).length = mRes.snodes.length ∧
      (∀ x ∈ ([0] : List Nat),
        (stGet (initialState mRes 0) x).visited = true)) ∧
    ((stGet (initialState mRes 0) 0).visited = true ∧
    (∀ x ∈ (stepIter dW mRes 2 (initialState mRes 0, [0])).2,
      (stGet (stepIter dW mRes 2 (initialState mRes 0, [0])).1 x).visited = true) ∧
    (∀ i, (stGet (initialState mRes 0) i).visited = true →
      stGet (stepIter dW mRes 2 (initialState mRes 0, [0])).1 i =
        stGet (initialState mRes 0) i)) :=
  ⟨⟨by decide, by decide, by decide, by decide⟩,
   C3_visited_discipline dW mRes 0 2 (by decide) (by decide)
     (initialState mRes 0) [0] (by decide) (by decide)⟩

/-- C7: for a node whose parent chain c ends in null, ConstructFinalPath
returns the chain reversed into start-to-goal order with distance equal to
the sum of per-hop distances times the metric scale; with a positive scale
and nonzero hops the distance is nonnegative and vanishes exactly for a
single-node path, in which case the returned path is that one node. -/
theorem C7_construct_final_path {d : Point → Point → ℚ} (hd : DistOk d)
    (m : RouteModel) (st : List NodeState) (n : Nat) (c : List Nat)
    (hc : Chain st n c) (fuel : Nat) (hfuel : c.length ≤ fuel)
    (hscale : 0 < m.metricScale)
    (hhops : List.Chain' (fun a b => d (coord m a) (coord m b) ≠ 0) c) :
    constructFinalPath d m st fuel n =
      some (c.reverse, chainDist d m c * m.metricScale) ∧
    0 ≤ chainDist d m c * m.metricScale ∧
    (chainDist d m c * m.metricScale = 0 ↔ c.length = 1) ∧
    (c.length = 1 → c.reverse = [n]) := by
  have hgo := constructGo_chain d m st hc fuel [] 0 hfuel
  refine ⟨?_, ?_, ?_, ?_⟩
  · rw [constructFinalPath, hgo]
    simp
  · exact mul_nonneg (chainDist_nonneg hd m c) (le_of_lt hscale)
  · constructor
    · intro h0
      cases c with
      | nil => exact absurd rfl hc.ne_nil
      | cons a t =>
          cases t with
          | nil => rfl
          | cons b rest =>
              exfalso
              have hab : d (coord m a) (coord m b) ≠ 0 :=
                (List.chain'_cons.mp hhops).1
              have hpos : 0 < chainDist d m (a :: b :: rest) :=
                chainDist_pos hd m a b rest hab
              have := mul_pos hpos hscale
              rw [h0] at this
              exact lt_irrefl 0 this
    · intro h1
      obtain ⟨a, ha⟩ := List.length_eq_one.mp h1
      rw [ha, chainDist, zero_mul]
  · intro h1
    obtain ⟨a, ha⟩ := List.length_eq_one.mp h1
    have hhead : c.head? = some n := hc.head
    rw [ha] at hhead ⊢
    have : a = n := by simpa using hhead
    rw [this]
    rfl

/-- State for the C7 witness: node 1 has parent 0, node 0 has null parent. -/
def stC7 : List NodeState :=
  [⟨none, floatMax, 0, true⟩, ⟨some 0, 1, 1, true⟩]

/-- Witness for C7 on a two-node chain in mC2. -/
theorem C7_construct_final_path_witness :
    (DistOk dW ∧ Chain stC7 1 [1, 0] ∧ ([1, 0] : List Nat).length ≤ 2 ∧
      0 < mC2.metricScale ∧
      List.Chain' (fun a b => dW (coord mC2 a) (coord mC2 b) ≠ 0) [1, 0]) ∧
    (constructFinalPath dW mC2 stC7 2 1 =
        some (([1, 0] : List Nat).reverse, chainDist dW mC2 [1, 0] * mC2.metricScale) ∧
      0 ≤ chainDist dW mC2 [1, 0] * mC2.metricScale ∧
      (chainDist dW mC2 [1, 0] * mC2.metricScale = 0 ↔
        ([1, 0] : List Nat).length = 1) ∧
      (([1, 0] : List Nat).length = 1 → ([1, 0] : List Nat).reverse = [1])) ∧
    constructFinalPath dW mC2 stC7 2 1 = some ([0, 1], 1) :=
  ⟨⟨distOk_dW, Chain.cons 1 0 [0] rfl (Chain.base 0 rfl), by decide, by decide,
      List.chain'_pair.mpr (by decide)⟩,
   C7_construct_final_path distOk_dW mC2 stC7 1 [1, 0]
     (Chain.cons 1 0 [0] rfl (Chain.base 0 rfl)) 2 (by decide) (by decide)
     (List.chain'_pair.mpr (by decide)),
   by decide⟩

/-- C8: on a model with at least one point on a non-footway road,
FindClosestNode returns such a point at minimal (squared-)Euclidean
distance to the query; footway-only points are never candidates (the
candidate list is exactly the points of non-footway roads), and a query
equal to a candidate's coordinates yields that coordinate at distance 0. -/
theorem C8_find_closest_node {d : Point → Point → ℚ} (hd : DistOk d)
    (m : RouteModel) (x y : ℚ) (hne : roadPoints m ≠ []) :
    (∀ k, k ∈ roadPoints m ↔
      ∃ road ∈ m.roads, road.type ≠ RoadType.Footway ∧
        k ∈ (wayGet m road.way).nodes) ∧
    ∃ i, findClosestNode d m x y = some i ∧ i ∈ roadPoints m ∧
      (∀ j ∈ roadPoints m,
        sqDist ⟨x, y⟩ (coord m i) ≤ sqDist ⟨x, y⟩ (coord m j)) ∧
      ((∃ j ∈ roadPoints m, coord m j = ⟨x, y⟩) →
        coord m i = ⟨x, y⟩ ∧ d ⟨x, y⟩ (coord m i) = 0) :=
  ⟨fun _ => mem_roadPoints, findClosestNode_spec hd m x y hne⟩

/-- Witness for C8: the query (1, 1) coincides with node 2 of mRes. -/
theorem C8_find_closest_node_witness :
    (DistOk dW ∧ roadPoints mRes ≠ []) ∧
    ((∀ k, k ∈ roadPoints mRes ↔
      ∃ road ∈ mRes.roads, road.type ≠ RoadType.Footway ∧
        k ∈ (wayGet mRes road.way).nodes) ∧
    ∃ i, findClosestNode dW mRes 1 1 = some i ∧ i ∈ roadPoints mRes ∧
      (∀ j ∈ roadPoints mRes,
        sqDist ⟨1, 1⟩ (coord mRes i) ≤ sqDist ⟨1, 1⟩ (coord mRes j)) ∧
      ((∃ j ∈ roadPoints mRes, coord mRes j = ⟨1, 1⟩) →
        coord mRes i = ⟨1, 1⟩ ∧ dW ⟨1, 1⟩ (coord mRes i) = 0)) ∧
    findClosestNode dW mRes 1 1 = some 2 :=
  ⟨⟨distOk_dW, by decide⟩,
   C8_find_closest_node distOk_dW mRes 1 1 (by decide),
   by decide⟩

/-- C10: the RoutePlanner constructor multiplies each input coordinate by
0.01, so the stored start and end nodes are the closest routable nodes to
the scaled coordinates (x/100, y/100), not to the raw inputs. -/
theorem C10_constructor_percent {d : Point → Point → ℚ} (hd : DistOk d)
    (m : RouteModel) (sx sy ex ey : ℚ) (hne : roadPoints m ≠ []) :
    routePlannerInit d m sx sy ex ey =
      (findClosestNode d m (sx / 100) (sy / 100),
       findClosestNode d m (ex / 100) (ey / 100)) ∧
    (∃ i, (routePlannerInit d m sx sy ex ey).1 = some i ∧ i ∈ roadPoints m ∧
      ∀ j ∈ roadPoints m,
        sqDist ⟨sx / 100, sy / 100⟩ (coord m i) ≤
          sqDist ⟨sx / 100, sy / 100⟩ (coord m j)) ∧
    (∃ i, (routePlannerInit d m sx sy ex ey).2 = some i ∧ i ∈ roadPoints m ∧
      ∀ j ∈ roadPoints m,
        sqDist ⟨ex / 100, ey / 100⟩ (coord m i) ≤
          sqDist ⟨ex / 100, ey / 100⟩ (coord m j)) := by
  have h01 : ∀ t : ℚ, t * 0.01 = t / 100 := by
    intro t
    rw [show (0.01 : ℚ) = 1 / 100 from by norm_num]
    ring
  have heq : routePlannerInit d m sx sy ex ey =
      (findClosestNode d m (sx / 100) (sy / 100),
       findClosestNode d m (ex / 100) (ey / 100)) := by
    unfold routePlannerInit
    rw [h01 sx, h01 sy, h01 ex, h01 ey]
  refine ⟨heq, ?_, ?_⟩
  · obtain ⟨i, h1, h2, h3, _⟩ := findClosestNode_spec hd m (sx / 100) (sy / 100) hne
    exact ⟨i, by rw [heq]; exact h1, h2, h3⟩
  · obtain ⟨i, h1, h2, h3, _⟩ := findClosestNode_spec hd m (ex / 100) (ey / 100) hne
    exact ⟨i, by rw [heq]; exact h1, h2, h3⟩

/-- Witness for C10: inputs (100, 100) and (50, 0) on mRes scale to (1, 1)
and (0.5, 0), whose closest routable nodes are 2 and 0. -/
theorem C10_constructor_percent_witness :
    (DistOk dW ∧ roadPoints mRes ≠ []) ∧
    (routePlannerInit dW mRes 100 100 50 0 =
      (findClosestNode dW mRes (100 / 100) (100 / 100),
       findClosestNode dW mRes (50 / 100) (0 / 100)) ∧
    (∃ i, (routePlannerInit dW mRes 100 100 50 0).1 = some i ∧
      i ∈ roadPoints mRes ∧
      ∀ j ∈ roadPoints mRes,
        sqDist ⟨100 / 100, 100 / 100⟩ (coord mRes i) ≤
          sqDist ⟨100 / 100, 100 / 100⟩ (coord mRes j)) ∧
    (∃ i, (routePlannerInit dW mRes 100 100 50 0).2 = some i ∧
      i ∈ roadPoints mRes ∧
      ∀ j ∈ roadPoints mRes,
        sqDist ⟨50 / 100, 0 / 100⟩ (coord mRes i) ≤
          sqDist ⟨50 / 100, 0 / 100⟩ (coord mRes j))) ∧
    routePlannerInit dW mRes 100 100 50 0 = (some 2, some 0) :=
  ⟨⟨distOk_dW, by decide⟩,
   C10_constructor_percent distOk_dW mRes 100 100 50 0 (by decide),
   by decide⟩


/-- Initial measure bound: the loop measure starts at most 2·#nodes + 1. -/
theorem initialMeasure_le (m : RouteModel) (start : Nat) :
    searchMeasure (initialState m start) [start] ≤ 2 * m.snodes.length + 1 := by
  unfold searchMeasure
  have h1 : (unvFin (initialState m start)).card ≤ m.snodes.length := by
    unfold unvFin
    calc (Finset.filter (fun i => (stGet (initialState m start) i).visited = false)
          (Finset.range (initialState m start).length)).card
        ≤ (Finset.range (initialState m start).length).card :=
          Finset.card_filter_le _ _
      _ = m.snodes.length := by rw [Finset.card_range, initialState_length]
  simp only [List.length_singleton]
  omega

/-- With fuel above 2·#nodes + 1 the search loop never runs out of fuel:
each iteration pops one node and marks each insertion visited, so the
measure 2·#unvisited + #open strictly decreases. -/
theorem aStarSearch_terminates (d : Point → Point → ℚ) (m : RouteModel)
    (start endIdx : Nat) (hwf : WFModel m) (hs : start < m.snodes.length)
    (fuel : Nat) (hfuel : 2 * m.snodes.length + 1 < fuel) :
    aStarSearch d m start endIdx fuel ≠ .outOfFuel := by
  have hinv := inv_init m start endIdx hs
  have hmeas := initialMeasure_le m start
  exact (aStarLoop_master d m start endIdx hwf fuel (initialState m start)
    [start] hinv (by omega)).1

/-- C4: AStarSearch terminates on every well-formed finite graph: with fuel
exceeding the measure bound 2·#nodes + 1 (one fuel unit per iteration, and
iterations are bounded because each pop removes one open node and each
insertion marks a previously unvisited node visited), the loop never
exhausts its fuel — it reaches the goal or empties the open list, on
disconnected graphs included. -/
theorem C4_termination (d : Point → Point → ℚ) (m : RouteModel)
    (start endIdx : Nat) (hwf : WFModel m) (hs : start < m.snodes.length)
    (fuel : Nat) (hfuel : 2 * m.snodes.length + 1 < fuel) :
    aStarSearch d m start endIdx fuel ≠ .outOfFuel :=
  aStarSearch_terminates d m start endIdx hwf hs fuel hfuel

/-- Witness for C4 on the disconnected footway model. -/
theorem C4_termination_witness :
    (WFModel mFoot ∧ 0 < mFoot.snodes.length ∧
      2 * mFoot.snodes.length + 1 < 10) ∧
    aStarSearch dW mFoot 0 2 10 ≠ Outcome.outOfFuel :=
  ⟨⟨by decide, by decide, by decide⟩,
   C4_termination dW mFoot 0 2 (by decide) (by decide) 10 (by decide)⟩

/-- C5: when the open list empties before the end node is popped, the
search returns normally (no fuel exhaustion) with the exhausted outcome,
and no path is produced — the model's path is written only by a found
outcome, so pathResult is none exactly on exhaustion. -/
theorem C5_exhausted_no_path (d : Point → Point → ℚ) (m : RouteModel)
    (start endIdx : Nat) (hwf : WFModel m) (hs : start < m.snodes.length)
    (fuel : Nat) (hfuel : 2 * m.snodes.length + 1 < fuel) :
    aStarSearch d m start endIdx fuel ≠ .outOfFuel ∧
    (aStarSearch d m start endIdx fuel = .exhausted →
      pathResult (aStarSearch d m start endIdx fuel) = none) ∧
    (pathResult (aStarSearch d m start endIdx fuel) = none ↔
      aStarSearch d m start endIdx fuel = .exhausted) := by
  have h1 := aStarSearch_terminates d m start endIdx hwf hs fuel hfuel
  refine ⟨h1, ?_, ?_⟩
  · intro h
    rw [h]
    rfl
  · cases hout : aStarSearch d m start endIdx fuel with
    | found p dist =>
        constructor
        · intro h
          rw [pathResult] at h
          cases h
        · intro h
          cases h
    | exhausted => exact ⟨fun _ => rfl, fun _ => rfl⟩
    | outOfFuel => exact absurd hout h1

/-- Witness for C5: the footway scenario exhausts the open list and leaves
the path unwritten. -/
theorem C5_exhausted_no_path_witness :
    (WFModel mFoot ∧ 0 < mFoot.snodes.length ∧
      2 * mFoot.snodes.length + 1 < 10 ∧
      aStarSearch dW mFoot 0 2 10 = Outcome.exhausted ∧
      pathResult (aStarSearch dW mFoot 0 2 10) = none) ∧
    (aStarSearch dW mFoot 0 2 10 ≠ .outOfFuel ∧
      (aStarSearch dW mFoot 0 2 10 = .exhausted →
        pathResult (aStarSearch dW mFoot 0 2 10) = none) ∧
      (pathResult (aStarSearch dW mFoot 0 2 10) = none ↔
        aStarSearch dW mFoot 0 2 10 = .exhausted)) :=
  ⟨⟨by decide, by decide, by decide, by decide, by decide⟩,
   C5_exhausted_no_path dW mFoot 0 2 (by decide) (by decide) 10 (by decide)⟩

/-- C6 counterexample: in mDup the start and end nodes are joined by a
residential way, yet the search exhausts without a path, because the two
nodes share coordinates and FindNeighbor excludes zero-distance candidates.
The claim as stated is therefore false without a distinct-coordinates
assumption. -/
theorem C6_counterexample :
    DistOk dW ∧ WFModel mDup ∧ ReachRoad mDup 0 1 ∧
    0 < mDup.snodes.length ∧ 2 * mDup.snodes.length + 1 < 10 ∧
    aStarSearch dW mDup 0 1 10 = .exhausted ∧
    pathResult (aStarSearch dW mDup 0 1 10) = none :=
  ⟨distOk_dW, by decide,
   Relation.ReflTransGen.single
     ⟨⟨0, RoadType.Residential⟩, by decide, by decide, by decide, by decide⟩,
   by decide, by decide, by decide, by decide⟩

/-- C6 amended: on a well-formed graph whose distinct nodes have pairwise
distinct coordinates, whenever start and end are connected through
non-footway roads, AStarSearch terminates with a found outcome whose
non-empty path starts at the start node and ends at the end node, and that
path is what the run stores. -/
theorem C6_connected_found (d : Point → Point → ℚ) (hd : DistOk d)
    (m : RouteModel) (hwf : WFModel m)
    (hinj : ∀ i, i < m.snodes.length → ∀ j, j < m.snodes.length → i ≠ j →
      coord m i ≠ coord m j)
    (start endIdx : Nat) (hs : start < m.snodes.length)
    (fuel : Nat) (hfuel : 2 * m.snodes.length + 1 < fuel)
    (hreach : ReachRoad m start endIdx) :
    ∃ p dist, aStarSearch d m start endIdx fuel = .found p dist ∧
      p ≠ [] ∧ p.head? = some start ∧ p.getLast? = some endIdx ∧
      pathResult (aStarSearch d m start endIdx fuel) = some (p, dist) := by
  have hinv := inv_init m start endIdx hs
  have hri := roadInv_init m start hs
  have hmeas := initialMeasure_le m start
  have hmaster := aStarLoop_master d m start endIdx hwf fuel
    (initialState m start) [start] hinv (by omega)
  have hcomp := aStarLoop_complete d hd m hwf
    (fun i j h1 h2 => hinj i h1 j h2) start endIdx hreach fuel
    (initialState m start) [start] hinv hri
  cases hout : aStarLoop d m endIdx fuel (initialState m start) [start] with
  | found p dist =>
      obtain ⟨h1, h2, h3⟩ := hmaster.2 p dist hout
      refine ⟨p, dist, hout, h1, h2, h3, ?_⟩
      have hsearch : aStarSearch d m start endIdx fuel = .found p dist := hout
      rw [hsearch]
      rfl
  | exhausted => exact absurd hout hcomp
  | outOfFuel => exact absurd hout hmaster.1

/-- Witness for C6 on the residential model: the concrete scenario of the
spec.  The run from P0 to P2 finds the path [P0, P1, P2]; with metric scale
1 the reported distance is the unscaled 2, and the distance function agrees
with the true Euclidean distance on both traversed hops. -/
theorem C6_connected_found_witness :
    (DistOk dW ∧ WFModel mRes ∧
      (∀ i, i < mRes.snodes.length → ∀ j, j < mRes.snodes.length → i ≠ j →
        coord mRes i ≠ coord mRes j) ∧
      0 < mRes.snodes.length ∧ 2 * mRes.snodes.length + 1 < 10 ∧
      dW (coord mRes 0) (coord mRes 1) = 1 ∧
      dW (coord mRes 1) (coord mRes 2) = 1 ∧ mRes.metricScale = 1) ∧
    (∃ p dist, aStarSearch dW mRes 0 2 10 = .found p dist ∧
      p ≠ [] ∧ p.head? = some 0 ∧ p.getLast? = some 2 ∧
      pathResult (aStarSearch dW mRes 0 2 10) = some (p, dist)) ∧
    aStarSearch dW mRes 0 2 10 = .found [0, 1, 2] 2 :=
  by
  have adj01 : adjRoad mRes 0 1 :=
    ⟨⟨0, RoadType.Residential⟩, by decide, by decide, by decide, by decide⟩
  have adj12 : adjRoad mRes 1 2 :=
    ⟨⟨1, RoadType.Residential⟩, by decide, by decide, by decide, by decide⟩
  exact ⟨⟨distOk_dW, by decide, by decide, by decide, by decide, by decide,
      by decide, by decide⟩,
    C6_connected_found dW distOk_dW mRes (by decide) (by decide) 0 2
      (by decide) 10 (by decide)
      (Relation.ReflTransGen.tail (Relation.ReflTransGen.single adj01) adj12),
    by decide⟩

end ConcreteEvaluation
